import Mathlib

/-!
# k-means ESIMD test (`SYCL/ESIMD/kmeans/kmeans.cpp`)

A shallow embedding of the host side of the k-means test program and of the
index arithmetic of its two kernels.

* `float` coordinates are read as exact rationals (`ℚ`); a `float` quotient
  `0 / 0` is `0` there.
* C arrays passed as pointer + length are lists. An access outside the
  allocated block is undefined behaviour: `none` in the reference engine and
  the comparator, `Fault.undefined` in `main`.
* Loop counters and indices are natural numbers (no block has `2 ^ 31`
  elements).
* The constants and record types of `kmeans.h` are not in the translation
  unit: the constants are parameters, the record types are read off their use.
* `std::getline` is modelled on characters; `std::stof` and the device are
  parameters of a run.
-/

namespace KMeans

/-! ## Data model (`kmeans.h` record types, as used by `kmeans.cpp`) -/

/-- Scalar point: coordinates and the index of the assigned cluster. -/
structure Point where
  x : ℚ
  y : ℚ
  cluster : Nat
  deriving DecidableEq, Repr

/-- Scalar centroid: coordinates and the number of points assigned to it. -/
structure Centroid where
  x : ℚ
  y : ℚ
  num_points : Int
  deriving DecidableEq, Repr

/-- Scalar accumulator: running coordinate sums and point count. -/
structure Accum where
  x_sum : ℚ
  y_sum : ℚ
  num_points : Int
  deriving DecidableEq, Repr

/-! ## Reference engine -/

/-- Squared Euclidean distance, `dist` (kmeans.cpp:29-33). -/
def dist (p : Point) (c : Centroid) : ℚ :=
  let dx := p.x - c.x
  let dy := p.y - c.y
  dx * dx + dy * dy

/-- Inner loop of `clustering` (kmeans.cpp:45-52): walks the centroids from
index `j` on, carrying `(min_dis, cluster_idx)`. -/
def nearest_loop (p : Point) : List Centroid → Nat → ℚ × Nat → ℚ × Nat
  | [], _, st => st
  | c :: rest, j, (min_dis, cluster_idx) =>
    let dis := dist p c
    if dis < min_dis ∨ min_dis = -1 then nearest_loop p rest (j + 1) (dis, j)
    else nearest_loop p rest (j + 1) (min_dis, cluster_idx)

/-- Body of the outer assignment loop (kmeans.cpp:42-53) for one point:
`min_dis = -1`, `cluster_idx = 0`, inner loop, then `pts[i].cluster = cluster_idx`. -/
def assign (ctrds : List Centroid) (p : Point) : Point :=
  { p with cluster := (nearest_loop p ctrds 0 (-1, 0)).2 }

/-- One step of the accumulation loop (kmeans.cpp:59-62): `accum[c]` is
updated in place; `c` outside the block is undefined behaviour (`none`). -/
def add_point (accum : List Accum) (p : Point) : Option (List Accum) :=
  match accum[p.cluster]? with
  | some a =>
    some (accum.set p.cluster
      { x_sum := a.x_sum + p.x, y_sum := a.y_sum + p.y, num_points := a.num_points + 1 })
  | none => none

/-- Accumulation loop (kmeans.cpp:58-63). -/
def accumulate : List Point → List Accum → Option (List Accum)
  | [], accum => some accum
  | p :: rest, accum =>
    match add_point accum p with
    | some accum1 => accumulate rest accum1
    | none => none

/-- Final loop of `clustering` (kmeans.cpp:64-68): every field of `ctrds[j]`
is overwritten from `accum[j]`. -/
def new_centroid (a : Accum) : Centroid :=
  { x := a.x_sum / a.num_points, y := a.y_sum / a.num_points, num_points := a.num_points }

/-- The function `clustering` (kmeans.cpp:35-70); `num_pts` and `num_ctrds` are
the lengths of the two lists. Returns the updated points and centroids. -/
def clustering (pts : List Point) (ctrds : List Centroid) :
    Option (List Point × List Centroid) :=
  let pts1 := pts.map (assign ctrds)
  let accum0 : List Accum := List.replicate ctrds.length ⟨0, 0, 0⟩
  match accumulate pts1 accum0 with
  | some accum => some (pts1, List.zipWith (fun _ a => new_centroid a) ctrds accum)
  | none => none

/-- The function `cpu_kmeans` (kmeans.cpp:113-122). -/
def cpu_kmeans (pts : List Point) (ctrds : List Centroid) :
    Nat → Option (List Point × List Centroid)
  | 0 => some (pts, ctrds)
  | iterations + 1 =>
    match clustering pts ctrds with
    | some (pts1, ctrds1) => cpu_kmeans pts1 ctrds1 iterations
    | none => none

/-! ## Specification vocabulary for the reference engine -/

/-- The pair `m`, `idx` describes the first nearest centroid of `p` among `cs`:
`idx` holds a centroid at distance `m`, none is closer, the earlier ones are
strictly farther. -/
def IsNearest (p : Point) (cs : List Centroid) (m : ℚ) (idx : Nat) : Prop :=
  (∃ c, cs[idx]? = some c ∧ dist p c = m) ∧
  (∀ (k : Nat) (c : Centroid), cs[k]? = some c → m ≤ dist p c) ∧
  (∀ (k : Nat) (c : Centroid), k < idx → cs[k]? = some c → m < dist p c)

/-- The points of `pts` whose cluster index is `j`. -/
def members (pts : List Point) (j : Nat) : List Point :=
  pts.filter (fun p => p.cluster = j)

/-- Accumulator `a` after adding every point of `ps`. -/
def add_all (a : Accum) (ps : List Point) : Accum :=
  { x_sum := a.x_sum + (ps.map Point.x).sum,
    y_sum := a.y_sum + (ps.map Point.y).sum,
    num_points := a.num_points + (ps.length : Int) }

/-! ## Packed records and the nearest-centroid search of kernel `kMeans` -/

/-- Packed centroid group (`Centroid4`): `SIMD_SIZE` lanes of `x`, then of `y`,
then of `num_points`, in this order (the kernels address it through `xyn`). -/
structure Centroid4 where
  x : List ℚ
  y : List ℚ
  num_points : List Int
  deriving DecidableEq, Repr

/-- Packed point group (`Point4`): `SIMD_SIZE` lanes of `x`, `y` and `cluster`. -/
structure Point4 where
  x : List ℚ
  y : List ℚ
  cluster : List Nat
  deriving DecidableEq, Repr

/-- The register block `centroids` after the load loop (kmeans.cpp:239-251):
the first `NUM_CENTROIDS_ALLOCATED / SIMD_SIZE` groups of `kcentroids4`. -/
def load_centroids (S NCALLOC : Nat) (kcentroids4 : List Centroid4) : List Centroid4 :=
  kcentroids4.take (NCALLOC / S)

/-- Element `centroidsXY.row(2 * j)[k]`; lanes that were never loaded hold the
initial `0`. -/
def row_x (regs : List Centroid4) (j k : Nat) : ℚ :=
  match regs[j]? with
  | some g => g.x.getD k 0
  | none => 0

/-- Element `centroidsXY.row(2 * j + 1)[k]`. -/
def row_y (regs : List Centroid4) (j k : Nat) : ℚ :=
  match regs[j]? with
  | some g => g.y.getD k 0
  | none => 0

/-- One distance computation followed by the two `merge` calls
(kmeans.cpp:286-290, 297-301, 308-312), for one lane holding the point
`(px, py)`; the state is `(cluster, min_dist)` of that lane. -/
def merge_step (px py cx cy : ℚ) (idx : Nat) (st : Nat × ℚ) : Nat × ℚ :=
  let dx := px - cx
  let dy := py - cy
  let dist := dx * dx + dy * dy
  (if dist < st.2 then idx else st.1, if dist < st.2 then dist else st.2)

/-- Nearest-centroid search of kernel `kMeans` (kmeans.cpp:273-313) for one
lane: initialisation from centroid 0, then the three loops. -/
def kernel_search (S NCA NCALLOC : Nat) (kcentroids4 : List Centroid4) (px py : ℚ) :
    Nat × ℚ :=
  let regs := load_centroids S NCALLOC kcentroids4
  let dx := px - row_x regs 0 0
  let dy := py - row_y regs 0 0
  let st0 : Nat × ℚ := (0, dx * dx + dy * dy)
  let st1 := (List.range' 1 (S - 1)).foldl
    (fun st j => merge_step px py (row_x regs 0 j) (row_y regs 0 j) j st) st0
  let st2 := (List.range' 1 (NCA / S - 1)).foldl
    (fun st j => (List.range S).foldl
      (fun st k => merge_step px py (row_x regs j k) (row_y regs j k) (j * S + k) st) st) st1
  (List.range (NCA &&& (S - 1))).foldl
    (fun st k => merge_step px py (row_x regs (NCA / S) k) (row_y regs (NCA / S) k)
      (NCA / S * S + k) st) st2

/-- The cluster vector stored by `block_store` (kmeans.cpp:315) for one point
group: every SIMD operation of the search acts lane by lane. -/
def kernel_cluster (S NCA NCALLOC : Nat) (kcentroids4 : List Centroid4) (g : Point4) :
    List Nat :=
  List.zipWith (fun px py => (kernel_search S NCA NCALLOC kcentroids4 px py).1) g.x g.y

/-- The triples `(index given to merge, group read, lane read)` of the three
search loops of kernel `kMeans`, in execution order. -/
def kernel_visits (S NCA : Nat) : List (Nat × Nat × Nat) :=
  (List.range' 1 (S - 1)).map (fun j => (j, 0, j)) ++
  (List.range' 1 (NCA / S - 1)).flatMap
    (fun j => (List.range S).map (fun k => (j * S + k, j, k))) ++
  (List.range (NCA &&& (S - 1))).map (fun k => (NCA / S * S + k, NCA / S, k))

/-- The packed groups hold the coordinates of the scalar centroids in lane
order: centroid `i` sits in group `i / S`, lane `i % S`, of a loaded group. -/
def PacksCentroids (S NCALLOC : Nat) (kcentroids4 : List Centroid4)
    (ctrds : List Centroid) : Prop :=
  ∀ (i : Nat) (c : Centroid), ctrds[i]? = some c →
    i / S < NCALLOC / S ∧
    ∃ g, kcentroids4[i / S]? = some g ∧ g.x[i % S]? = some c.x ∧ g.y[i % S]? = some c.y

/-! ## Comparator -/

/-- The macro `max` (kmeans.cpp:72) at `float` operands. -/
def max_float (a b : ℚ) : ℚ := if a > b then a else b

/-- The macro `max` (kmeans.cpp:72) at `int` operands. -/
def max_int (a b : Int) : Int := if a > b then a else b

/-- Loop of `verify_result` (kmeans.cpp:80-107) with `n` iterations left, loop
counter `i` and lane counters `j`, `k`. `errSize` is computed on `int`
operands, so its quotient is the truncating integer division; a zero divisor
there, or a read outside a block, is undefined behaviour (`none`). A `float`
quotient `0 / 0` compares false with the threshold, as `0` does. -/
def verify_loop (S : Nat) (centroids4 : List Centroid4) (centroids : List Centroid) :
    Nat → Nat → Nat → Nat → Option Bool
  | 0, _, _, _ => some true
  | n + 1, i, j, k =>
    match centroids4[j]?, centroids[i]? with
    | some g, some c =>
      match g.x[k]?, g.y[k]?, g.num_points[k]? with
      | some gx, some gy, some gn =>
        let errX : ℚ := |gx - c.x| / max_float |gx| |c.x|
        let errY : ℚ := |gy - c.y| / max_float |gy| |c.y|
        if max_int |gn| |c.num_points| = 0 then none
        else
          let errSize : ℚ := ((Int.tdiv |gn - c.num_points| (max_int |gn| |c.num_points|) : Int) : ℚ)
          if errX ≥ 0.002 ∨ errY ≥ 0.002 ∨ errSize ≥ 0.002 then some false
          else if k + 1 = S then verify_loop S centroids4 centroids n (i + 1) (j + 1) 0
          else verify_loop S centroids4 centroids n (i + 1) j (k + 1)
      | _, _, _ => none
    | _, _ => none

/-- The function `verify_result` (kmeans.cpp:74-110). -/
def verify_result (S NCA : Nat) (centroids4 : List Centroid4) (centroids : List Centroid) :
    Option Bool :=
  verify_loop S centroids4 centroids NCA 0 0 0

/-- Relative error `|got - want| / max(|got|, |want|)` over exact numbers. -/
def rel_err (got want : ℚ) : ℚ := |got - want| / max |got| |want|

/-- What one passing iteration of `verify_result` establishes for logical
centroid `t`: the lanes read exist, the `x` and `y` relative errors are below
the threshold, and the truncated integer quotient computed for the count is
below the threshold. -/
def VerifiedAt (S : Nat) (centroids4 : List Centroid4) (centroids : List Centroid)
    (t : Nat) : Prop :=
  ∃ g c gx gy gn, centroids4[t / S]? = some g ∧ centroids[t]? = some c ∧
    g.x[t % S]? = some gx ∧ g.y[t % S]? = some gy ∧ g.num_points[t % S]? = some gn ∧
    rel_err gx c.x < 0.002 ∧ rel_err gy c.y < 0.002 ∧
    ((Int.tdiv |gn - c.num_points| (max_int |gn| |c.num_points|) : Int) : ℚ) < 0.002

/-! ## Host program: configuration, input stream, reading loop -/

/-- The constants of `kmeans.h` used by `kmeans.cpp`. -/
structure Config where
  NUM_POINTS : Nat
  SIMD_SIZE : Nat
  NUM_CENTROIDS_ACTUAL : Nat
  NUM_CENTROIDS_ALLOCATED : Nat
  POINTS_PER_THREAD : Nat
  NUM_ITERATIONS : Nat

/-- Ways in which a run stops without reaching a `return` or `exit`: an
exception that nothing catches (`std::terminate`), or undefined behaviour
(access outside an allocated block, `int` division by zero). -/
inductive Fault where
  | uncaught
  | undefined
  deriving DecidableEq, Repr

deriving instance DecidableEq for Except

/-- State of the `std::ifstream`: the characters not yet extracted and the
`eofbit` and `failbit` flags. -/
structure IStream where
  rest : List Char
  eof : Bool
  fail : Bool
  deriving DecidableEq, Repr

/-- Extraction of `std::getline`: the characters before the first `delim`,
and what follows the delimiter (`none` when the end of file came first). -/
def take_until (delim : Char) : List Char → List Char × Option (List Char)
  | [] => ([], none)
  | c :: cs =>
    if c = delim then ([], some cs)
    else ((take_until delim cs).1.cons c, (take_until delim cs).2)

/-- The call `std::getline(is, str, delim)`: on a stream that is not good the sentry
sets `failbit` and `str` is left alone; otherwise `str` is replaced by the
extracted characters, the delimiter is discarded, reaching the end of file
sets `eofbit`, and extracting nothing at all sets `failbit`. -/
def getline (is : IStream) (str : List Char) (delim : Char) : IStream × List Char :=
  if is.eof ∨ is.fail then ({ is with fail := true }, str)
  else
    match take_until delim is.rest with
    | (s, some rest) => ({ is with rest := rest }, s)
    | (s, none) => ({ rest := [], eof := true, fail := s.isEmpty }, s)

/-- Checked store `v[i] = a`: outside the block it is undefined behaviour. -/
def store {α : Type} (v : List α) (i : Nat) (a : α) : Except Fault (List α) :=
  if i < v.length then Except.ok (v.set i a) else Except.error Fault.undefined

/-- Checked load `v[i]`. -/
def load {α : Type} (v : List α) (i : Nat) : Except Fault α :=
  match v[i]? with
  | some a => Except.ok a
  | none => Except.error Fault.undefined

/-- The call `std::stof` as used by the reading loop: a conversion that throws
(`none`) is not caught anywhere in `main`. -/
def stof_or_throw (stof : List Char → Option ℚ) (s : List Char) : Except Fault ℚ :=
  match stof s with
  | some v => Except.ok v
  | none => Except.error Fault.uncaught

/-- Variables of the reading loop (kmeans.cpp:157-160) and the two arrays it
fills. -/
structure ReadState where
  infile : IStream
  first : List Char
  second : List Char
  i : Nat
  j : Nat
  k : Nat
  points : List Point
  points4 : List Point4
  deriving DecidableEq

/-- Body of the reading loop after the `break` test (kmeans.cpp:164-177);
`st.infile` and `st.first` already reflect the `getline` of the loop condition. -/
def read_body (stof : List Char → Option ℚ) (S : Nat) (st : ReadState) :
    Except Fault ReadState := do
  let x ← stof_or_throw stof st.first
  let r := getline st.infile st.second '\n'
  let y ← stof_or_throw stof r.2
  let p ← load st.points st.i
  let points ← store st.points st.i { p with x := x, y := y }
  let g ← load st.points4 st.j
  let gx ← store g.x st.k x
  let gy ← store g.y st.k y
  let points4 ← store st.points4 st.j { g with x := gx, y := gy }
  let k := st.k + 1
  Except.ok
    { infile := r.1, first := st.first, second := r.2, i := st.i + 1,
      j := if k = S then st.j + 1 else st.j, k := if k = S then 0 else k,
      points := points, points4 := points4 }

/-- The reading loop (kmeans.cpp:161-178). Every pass that reaches the body
increments `i` and the loop breaks at `i == NUM_POINTS`, so `NUM_POINTS + 1`
passes always suffice; `fuel` counts the passes still allowed. -/
def read_loop (stof : List Char → Option ℚ) (S NUM_POINTS : Nat) :
    Nat → ReadState → Except Fault ReadState
  | 0, st => Except.ok st
  | fuel + 1, st =>
    let r := getline st.infile st.first ','
    if r.1.fail then Except.ok { st with infile := r.1, first := r.2 }
    else if st.i = NUM_POINTS then Except.ok { st with infile := r.1, first := r.2 }
    else
      match read_body stof S { st with infile := r.1, first := r.2 } with
      | Except.ok st1 => read_loop stof S NUM_POINTS fuel st1
      | Except.error f => Except.error f

/-- Zero-filled blocks, as left by `memset` after `malloc_shared`
(kmeans.cpp:138-149). -/
def zero_points (n : Nat) : List Point := List.replicate n ⟨0, 0, 0⟩

/-- Zero-filled block of `n` packed point groups of `S` lanes. -/
def zero_points4 (S n : Nat) : List Point4 :=
  List.replicate n ⟨List.replicate S 0, List.replicate S 0, List.replicate S 0⟩

/-- Zero-filled block of `n` scalar centroids. -/
def zero_centroids (n : Nat) : List Centroid := List.replicate n ⟨0, 0, 0⟩

/-- Zero-filled block of `n` packed centroid groups of `S` lanes. -/
def zero_centroids4 (S n : Nat) : List Centroid4 :=
  List.replicate n ⟨List.replicate S 0, List.replicate S 0, List.replicate S 0⟩

/-- Lines 157-179 of `main` on the contents of the opened file: the state in
which the reading loop leaves `points` and `points4`. -/
def read_points (cfg : Config) (stof : List Char → Option ℚ) (content : List Char) :
    Except Fault ReadState :=
  read_loop stof cfg.SIMD_SIZE cfg.NUM_POINTS (cfg.NUM_POINTS + 1)
    { infile := ⟨content, false, false⟩, first := [], second := [], i := 0, j := 0, k := 0,
      points := zero_points cfg.NUM_POINTS,
      points4 := zero_points4 cfg.SIMD_SIZE (cfg.NUM_POINTS / cfg.SIMD_SIZE) }

/-- A sample conversion for concrete runs: unsigned decimal integers, anything
else throws. -/
def stof_digits (s : List Char) : Option ℚ :=
  if s ≠ [] ∧ s.all Char.isDigit then
    some ((s.foldl (fun n c => 10 * n + (c.toNat - 48)) 0 : Nat) : ℚ)
  else none

/-- One input record: the text of its two fields and the numbers they denote. -/
structure Record where
  first : List Char
  second : List Char
  x : ℚ
  y : ℚ

/-- Text of a record as a line of the input file: `first,second` and a newline. -/
def render (r : Record) : List Char :=
  r.first ++ ',' :: (r.second ++ ['\n'])

/-- Text of a file holding the records one per line; when `terminated` is
`false` the last line lacks its newline. -/
def render_file : List Record → Bool → List Char
  | [], _ => []
  | r :: rest, terminated =>
    if rest.isEmpty && !terminated then r.first ++ ',' :: r.second
    else render r ++ render_file rest terminated

/-- A well-formed coordinate pair: no field contains its delimiter and
`std::stof` converts both. -/
def WellFormed (stof : List Char → Option ℚ) (r : Record) : Prop :=
  ',' ∉ r.first ∧ '\n' ∉ r.second ∧ stof r.first = some r.x ∧ stof r.second = some r.y

/-- Value of the variable `second` of `main` after the reading loop has read
the records: the second field of the last one, or the earlier value `prev`
when there is none. -/
def last_second : List Char → List Record → List Char
  | prev, [] => prev
  | _, r :: rest => last_second r.second rest

/-- Field that the call `std::getline(infile, first, ',')` of the loop
condition delivers from the unread text `rest` of a stream in good state. -/
def next_first (rest : List Char) : List Char :=
  (getline ⟨rest, false, false⟩ [] ',').2

/-- Field that the call `std::getline(infile, second, '\n')` of the loop body
delivers after it; `prev` is the value `second` had before, which the call
leaves in place when the first call has reached the end of the file. -/
def next_second (rest prev : List Char) : List Char :=
  (getline (getline ⟨rest, false, false⟩ [] ',').1 prev '\n').2

/-- Lane `t % S` of field `x` in group `t / S` of the packed points. -/
def lane_x4 (S : Nat) (points4 : List Point4) (t : Nat) : Option ℚ :=
  (points4[t / S]?).bind (fun g => g.x[t % S]?)

/-- Lane `t % S` of field `y` in group `t / S` of the packed points. -/
def lane_y4 (S : Nat) (points4 : List Point4) (t : Nat) : Option ℚ :=
  (points4[t / S]?).bind (fun g => g.y[t % S]?)

/-- Every group of the packed points has `S` lanes in `x` and in `y`. -/
def Shaped4 (S : Nat) (points4 : List Point4) : Prop :=
  ∀ g ∈ points4, g.x.length = S ∧ g.y.length = S

/-! ## Index arithmetic of the kernels -/

/-- The pair `(group, lane)` that the kernels derive from a record index `c`
(kmeans.cpp:319-321 and 377-378): `c / SIMD_SIZE` and `c & (SIMD_SIZE - 1)`. -/
def lane_of (S c : Nat) : Nat × Nat := (c / S, c &&& (S - 1))

/-- The number of threads of kernel `kMeans` (kmeans.cpp:228). -/
def total_threads (NUM_POINTS POINTS_PER_THREAD : Nat) : Nat :=
  (NUM_POINTS - 1) / POINTS_PER_THREAD + 1

/-- The point group that thread `g` of kernel `kMeans` loads in pass `i` of
its loop (kmeans.cpp:268-276): `kpoints4[index + i]` with
`index = g * POINTS_PER_THREAD / SIMD_SIZE`. -/
def thread_group (POINTS_PER_THREAD S g i : Nat) : Nat :=
  g * POINTS_PER_THREAD / S + i

/-! ## Host program: centroid initialisation -/

/-- Scalar centroid initialisation (kmeans.cpp:184-188), passes `i < n`. -/
def init_centroids (points : List Point) :
    Nat → List Centroid → Except Fault (List Centroid)
  | 0, centroids => Except.ok centroids
  | n + 1, centroids => do
    let cs ← init_centroids points n centroids
    let p ← load points n
    store cs n { x := p.x, y := p.y, num_points := 0 }

/-- The three stores of the packed initialisation for group `i`, lane `j`
(kmeans.cpp:205-207 and 211-215). -/
def copy_lane (points4 : List Point4) (i j : Nat) (centroids4 : List Centroid4) :
    Except Fault (List Centroid4) := do
  let src ← load points4 i
  let dst ← load centroids4 i
  let x ← load src.x j
  let dx ← store dst.x j x
  let y ← load src.y j
  let dy ← store dst.y j y
  let dn ← store dst.num_points j 0
  store centroids4 i { x := dx, y := dy, num_points := dn }

/-- Lane loop `for (j = 0; j < n; j++)` of the packed initialisation on group `i`. -/
def copy_lanes (points4 : List Point4) (i : Nat) :
    Nat → List Centroid4 → Except Fault (List Centroid4)
  | 0, centroids4 => Except.ok centroids4
  | n + 1, centroids4 => do
    let c ← copy_lanes points4 i n centroids4
    copy_lane points4 i n c

/-- Full-group loop (kmeans.cpp:203-209), passes `i < m`. -/
def copy_groups (S : Nat) (points4 : List Point4) :
    Nat → List Centroid4 → Except Fault (List Centroid4)
  | 0, centroids4 => Except.ok centroids4
  | m + 1, centroids4 => do
    let c ← copy_groups S points4 m centroids4
    copy_lanes points4 m S c

/-- Packed centroid initialisation (kmeans.cpp:196-216): `memset` of the
allocated block (byte counts are not modelled), the full-group loop and the
remainder loop. -/
def init_centroids4 (S NCA NCALLOC : Nat) (points4 : List Point4) :
    Except Fault (List Centroid4) := do
  let c ← copy_groups S points4 (NCA / S) (zero_centroids4 S (NCALLOC / S))
  copy_lanes points4 (NCA / S) (NCA &&& (S - 1)) c

/-- The loop `points4[i].cluster[j] = 0` (kmeans.cpp:198-202) over every group
and lane of the block. -/
def clear_clusters (points4 : List Point4) : List Point4 :=
  points4.map (fun g => { g with cluster := g.cluster.map (fun _ => 0) })

/-- Lane `l` of field `x` in group `g` of the packed centroids. -/
def cell_x (centroids4 : List Centroid4) (g l : Nat) : Option ℚ :=
  (centroids4[g]?).bind (fun G => G.x[l]?)

/-- Lane `l` of field `y` in group `g` of the packed centroids. -/
def cell_y (centroids4 : List Centroid4) (g l : Nat) : Option ℚ :=
  (centroids4[g]?).bind (fun G => G.y[l]?)

/-- Lane `l` of field `num_points` in group `g` of the packed centroids. -/
def cell_n (centroids4 : List Centroid4) (g l : Nat) : Option Int :=
  (centroids4[g]?).bind (fun G => G.num_points[l]?)

/-- Every group of the packed centroids has `S` lanes in each field. -/
def CShaped (S : Nat) (centroids4 : List Centroid4) : Prop :=
  ∀ G ∈ centroids4, G.x.length = S ∧ G.y.length = S ∧ G.num_points.length = S

/-- The scalar and the packed points hold the same input in lane order. -/
def PacksPoints (S : Nat) (points : List Point) (points4 : List Point4) : Prop :=
  ∀ (i : Nat) (p : Point), points[i]? = some p →
    lane_x4 S points4 i = some p.x ∧ lane_y4 S points4 i = some p.y

/-- The pairs `(group, lane)` written by the full-group loop and then by the
remainder loop of the packed initialisation (kmeans.cpp:203-216), in order. -/
def init_writes (S NCA : Nat) : List (Nat × Nat) :=
  (List.range (NCA / S)).flatMap (fun i => (List.range S).map (fun j => (i, j))) ++
  (List.range (NCA &&& (S - 1))).map (fun j => (NCA / S, j))

/-! ## Host program: `main` -/

/-- What the surroundings supply to one run of `main`: the argument count,
the contents of the file named by `argv[1]` (`none` when it cannot be opened),
the conversion `std::stof`, and the device: call number `t` of `submitJobs`
on the packed points and centroids either throws a SYCL exception with the
given error code or leaves the packed arrays as returned. -/
structure Env where
  argc : Int
  file : Option (List Char)
  stof : List Char → Option ℚ
  submit : Nat → List Point4 → List Centroid4 → Except Int (List Point4 × List Centroid4)

/-- How a run of `main` ends: with an exit status (`exit` or `return`), or
with a fault. -/
inductive Outcome where
  | exit (status : Int)
  | fault (f : Fault)
  deriving DecidableEq, Repr

/-- A run of `main`: how it ended and how many calls of `submitJobs` it began. -/
structure Run where
  outcome : Outcome
  submitted : Nat
  deriving DecidableEq, Repr

/-- The `try` block (kmeans.cpp:389-401): `n` more calls of `submitJobs` after
`done` calls. The result is the packed centroids left by the last call, or the
error code of the exception caught, with the number of calls begun. -/
def submit_loop
    (submit : Nat → List Point4 → List Centroid4 → Except Int (List Point4 × List Centroid4)) :
    Nat → Nat → List Point4 → List Centroid4 → Except Int (List Centroid4) × Nat
  | 0, done, _, centroids4 => (Except.ok centroids4, done)
  | n + 1, done, points4, centroids4 =>
    match submit done points4 centroids4 with
    | Except.ok r => submit_loop submit n (done + 1) r.1 r.2
    | Except.error code => (Except.error code, done + 1)

/-- Lines 157-216 of `main` on the contents of the opened file: reading loop,
scalar initialisation, `cpu_kmeans`, packed initialisation. The result is the
packed points, the packed centroids and the reference centroids. -/
def prepare (cfg : Config) (stof : List Char → Option ℚ) (content : List Char) :
    Except Fault (List Point4 × List Centroid4 × List Centroid) := do
  let st ← read_points cfg stof content
  let centroids0 ← init_centroids st.points cfg.NUM_CENTROIDS_ACTUAL
    (zero_centroids cfg.NUM_CENTROIDS_ACTUAL)
  match cpu_kmeans st.points centroids0 cfg.NUM_ITERATIONS with
  | none => Except.error Fault.undefined
  | some ref =>
    let points4 := clear_clusters st.points4
    let centroids4 ← init_centroids4 cfg.SIMD_SIZE cfg.NUM_CENTROIDS_ACTUAL
      cfg.NUM_CENTROIDS_ALLOCATED points4
    Except.ok (points4, centroids4, ref.2)

/-- The function `main` (kmeans.cpp:124-442). Creating the queue and the
shared allocations are taken to succeed. -/
def main (cfg : Config) (env : Env) : Run :=
  if env.argc ≠ 2 then ⟨Outcome.exit 1, 0⟩
  else
    match env.file with
    | none => ⟨Outcome.exit (-1), 0⟩
    | some content =>
      match prepare cfg env.stof content with
      | Except.error f => ⟨Outcome.fault f, 0⟩
      | Except.ok (points4, centroids4, centroids) =>
        match submit_loop env.submit cfg.NUM_ITERATIONS 0 points4 centroids4 with
        | (Except.error code, n) => ⟨Outcome.exit code, n⟩
        | (Except.ok result4, n) =>
          match verify_result cfg.SIMD_SIZE cfg.NUM_CENTROIDS_ACTUAL result4 centroids with
          | some correct => ⟨Outcome.exit (if correct then 0 else 1), n⟩
          | none => ⟨Outcome.fault Fault.undefined, n⟩

/-! ## Partial sums: slots written by `kMeans`, slots read by `kCompCentroidPos` -/

/-- The elements of one field array of `kaccum4[c]` that kernel
`kCompCentroidPos` adds up (kmeans.cpp:354-367): pass `i` of its loop, for
`i < (NUM_POINTS / POINTS_PER_THREAD) / SIMD_SIZE`, loads the `SIMD_SIZE`
elements from `offset = i * SIMD_SIZE` on. -/
def reduced_slots (NUM_POINTS POINTS_PER_THREAD S : Nat) : List Nat :=
  (List.range (NUM_POINTS / POINTS_PER_THREAD / S)).flatMap
    (fun i => (List.range S).map (fun l => i * S + l))

/-- The elements of one field array of an accumulator that the threads of
kernel `kMeans` write (kmeans.cpp:228-229, 328-337): thread `g` scatters to
byte offset `g * sizeof(float)`, element `g`, for `g < total_threads`. -/
def written_slots (NUM_POINTS POINTS_PER_THREAD : Nat) : List Nat :=
  List.range (total_threads NUM_POINTS POINTS_PER_THREAD)

/-! ## Scatter addresses of kernel `kMeans` -/

/-- The size `sizeof(float)` in bytes. -/
def sizeof_float : Nat := 4

/-- Element `l` of the vector `offsets` of thread `g` (kmeans.cpp:328-329):
`simd<unsigned int, SIMD_SIZE> offsets(0, sizeof(Accum4))` followed by
`offsets += g * sizeof(float)`, in 32-bit unsigned arithmetic. -/
def scatter_offset (sizeof_Accum4 l g : Nat) : Nat :=
  (l * sizeof_Accum4 + g * sizeof_float) % 2 ^ 32

/-- Byte address, from the start of `kaccum4`, that lane `l` of thread `g`
writes in `scatter(kaccum4[i].field, ..., offsets)` (kmeans.cpp:331-337), for a
field array that starts `field_offset` bytes into `Accum4`. -/
def scatter_address (sizeof_Accum4 field_offset i l g : Nat) : Nat :=
  i * sizeof_Accum4 + field_offset + scatter_offset sizeof_Accum4 l g

/-! ## The k-means cost -/

/-- Least squared distance from `p` to a centroid of the list (`0` when there
is no centroid). -/
def min_dist (p : Point) : List Centroid → ℚ
  | [] => 0
  | c :: rest => rest.foldl (fun m c1 => min m (dist p c1)) (dist p c)

/-- The k-means cost: the sum over the points of the least squared distance
to a centroid. -/
def cost (pts : List Point) (ctrds : List Centroid) : ℚ :=
  (pts.map (fun p => min_dist p ctrds)).sum

/-! # Theorems -/

/-! ## Assignment pass -/

theorem dist_nonneg (p : Point) (c : Centroid) : 0 ≤ dist p c := by
  unfold dist
  exact add_nonneg (mul_self_nonneg _) (mul_self_nonneg _)

theorem dist_ne_sentinel (p : Point) (c : Centroid) : dist p c ≠ -1 := by
  have h := dist_nonneg p c
  intro h1
  rw [h1] at h
  norm_num at h

theorem isNearest_step (p : Point) (pre : List Centroid) (c : Centroid) (m : ℚ) (idx : Nat)
    (h : IsNearest p pre m idx) :
    IsNearest p (pre ++ [c])
      (if dist p c < m then dist p c else m) (if dist p c < m then pre.length else idx) := by
  obtain ⟨⟨c0, hc0, hm⟩, hall, hlow⟩ := h
  have hidx : idx < pre.length := by
    rcases Nat.lt_or_ge idx pre.length with h1 | h1
    · exact h1
    · rw [List.getElem?_eq_none h1] at hc0
      cases hc0
  by_cases hlt : dist p c < m
  · simp only [hlt, if_true]
    refine ⟨⟨c, by simp, rfl⟩, ?_, ?_⟩
    · intro k c1 hk
      rcases Nat.lt_or_ge k pre.length with h1 | h1
      · rw [List.getElem?_append_left h1] at hk
        exact le_of_lt (lt_of_lt_of_le hlt (hall k c1 hk))
      · rw [List.getElem?_append_right h1] at hk
        rcases Nat.eq_zero_or_pos (k - pre.length) with h0 | h0
        · rw [h0] at hk
          simp at hk
          rw [hk]
        · rw [List.getElem?_eq_none (by simp only [List.length_singleton]; omega)] at hk
          cases hk
    · intro k c1 hk1 hk
      rw [List.getElem?_append_left hk1] at hk
      exact lt_of_lt_of_le hlt (hall k c1 hk)
  · simp only [hlt, if_false]
    refine ⟨⟨c0, ?_, hm⟩, ?_, ?_⟩
    · rw [List.getElem?_append_left hidx]
      exact hc0
    · intro k c1 hk
      rcases Nat.lt_or_ge k pre.length with h1 | h1
      · rw [List.getElem?_append_left h1] at hk
        exact hall k c1 hk
      · rw [List.getElem?_append_right h1] at hk
        rcases Nat.eq_zero_or_pos (k - pre.length) with h0 | h0
        · rw [h0] at hk
          simp at hk
          rw [← hk]
          exact not_lt.mp hlt
        · rw [List.getElem?_eq_none (by simp only [List.length_singleton]; omega)] at hk
          cases hk
    · intro k c1 hk1 hk
      rw [List.getElem?_append_left (lt_trans hk1 hidx)] at hk
      exact hlow k c1 hk1 hk

theorem nearest_loop_spec (p : Point) :
    ∀ (cs pre : List Centroid) (m : ℚ) (idx : Nat), IsNearest p pre m idx →
      IsNearest p (pre ++ cs) (nearest_loop p cs pre.length (m, idx)).1
        (nearest_loop p cs pre.length (m, idx)).2
  | [], pre, m, idx, h => by simpa [nearest_loop] using h
  | c :: rest, pre, m, idx, h => by
    have hstep := isNearest_step p pre c m idx h
    have hm : m ≠ -1 := by
      obtain ⟨⟨c0, _, hm⟩, _, _⟩ := h
      rw [← hm]
      exact dist_ne_sentinel p c0
    have hrec := nearest_loop_spec p rest (pre ++ [c]) _ _ hstep
    have hlen : (pre ++ [c]).length = pre.length + 1 := by simp
    rw [hlen, List.append_assoc] at hrec
    simp only [List.singleton_append] at hrec
    unfold nearest_loop
    by_cases hlt : dist p c < m
    · simp only [hlt, if_true] at hrec
      simpa [hlt] using hrec
    · simp only [hlt, if_false] at hrec
      simpa [hlt, hm] using hrec

theorem assign_spec (p : Point) (ctrds : List Centroid) (hne : ctrds ≠ []) :
    ∃ m, IsNearest p ctrds m (assign ctrds p).cluster := by
  cases ctrds with
  | nil => exact absurd rfl hne
  | cons c rest =>
    have h0 : IsNearest p [c] (dist p c) 0 := by
      refine ⟨⟨c, rfl, rfl⟩, ?_, ?_⟩
      · intro k c1 hk
        cases k with
        | zero =>
          simp at hk
          rw [hk]
        | succ k => simp at hk
      · intro k c1 hk
        omega
    have h := nearest_loop_spec p rest [c] (dist p c) 0 h0
    refine ⟨(nearest_loop p rest 1 (dist p c, 0)).1, ?_⟩
    simpa [assign, nearest_loop] using h

/-! ## Update pass -/

theorem add_all_nil (a : Accum) : add_all a [] = a := by
  cases a
  simp [add_all]

theorem add_all_cons (a : Accum) (p : Point) (ps : List Point) :
    add_all ⟨a.x_sum + p.x, a.y_sum + p.y, a.num_points + 1⟩ ps = add_all a (p :: ps) := by
  simp only [add_all, List.map_cons, List.sum_cons, List.length_cons, Nat.cast_succ]
  congr 1 <;> ring

theorem accumulate_spec :
    ∀ (pts : List Point) (accum : List Accum), (∀ p ∈ pts, p.cluster < accum.length) →
      ∃ acc, accumulate pts accum = some acc ∧ acc.length = accum.length ∧
        ∀ j : Nat, acc[j]? = (accum[j]?).map (fun a => add_all a (members pts j))
  | [], accum, _ => by
    refine ⟨accum, rfl, rfl, ?_⟩
    intro j
    cases h : accum[j]? <;> simp [members, add_all_nil]
  | p :: rest, accum, hb => by
    have hp : p.cluster < accum.length := hb p (List.mem_cons_self _ _)
    have hget : accum[p.cluster]? = some (accum[p.cluster]) := List.getElem?_eq_getElem hp
    have hrest : ∀ q ∈ rest, q.cluster <
        (accum.set p.cluster ⟨accum[p.cluster].x_sum + p.x, accum[p.cluster].y_sum + p.y,
          accum[p.cluster].num_points + 1⟩).length := by
      intro q hq
      rw [List.length_set]
      exact hb q (List.mem_cons_of_mem _ hq)
    obtain ⟨acc, hacc, hlen, hspec⟩ := accumulate_spec rest _ hrest
    refine ⟨acc, ?_, ?_, ?_⟩
    · simp only [accumulate, add_point, hget]
      exact hacc
    · rw [hlen, List.length_set]
    · intro j
      rw [hspec j]
      by_cases hj : p.cluster = j
      · subst hj
        rw [List.getElem?_set_self hp, hget]
        simp only [Option.map_some']
        rw [add_all_cons]
        simp [members, List.filter_cons]
      · rw [List.getElem?_set_ne hj]
        simp [members, List.filter_cons, hj]

theorem assign_cluster_lt (p : Point) (ctrds : List Centroid) (hne : ctrds ≠ []) :
    (assign ctrds p).cluster < ctrds.length := by
  obtain ⟨m, ⟨c, hc, _⟩, _, _⟩ := assign_spec p ctrds hne
  rcases Nat.lt_or_ge (assign ctrds p).cluster ctrds.length with h1 | h1
  · exact h1
  · rw [List.getElem?_eq_none h1] at hc
    cases hc

/-- With at least one centroid `clustering` runs to completion; its result is
the assigned points and the centroids rebuilt from the per-cluster sums. -/
theorem clustering_eq (pts : List Point) (ctrds : List Centroid) (hne : ctrds ≠ []) :
    ∃ acc, clustering pts ctrds
        = some (pts.map (assign ctrds), List.zipWith (fun _ a => new_centroid a) ctrds acc) ∧
      acc.length = ctrds.length ∧
      ∀ j : Nat, j < ctrds.length →
        acc[j]? = some (add_all ⟨0, 0, 0⟩ (members (pts.map (assign ctrds)) j)) := by
  have hb : ∀ p ∈ pts.map (assign ctrds),
      p.cluster < (List.replicate ctrds.length (⟨0, 0, 0⟩ : Accum)).length := by
    intro p hp
    obtain ⟨q, _, rfl⟩ := List.mem_map.mp hp
    rw [List.length_replicate]
    exact assign_cluster_lt q ctrds hne
  obtain ⟨acc, hacc, hlen, hspec⟩ := accumulate_spec _ _ hb
  refine ⟨acc, ?_, ?_, ?_⟩
  · simp only [clustering, hacc]
  · rw [hlen, List.length_replicate]
  · intro j hj
    rw [hspec j]
    simp [List.getElem?_replicate, hj]

/-! ## Claims on `clustering` -/

/-- C1: with at least one centroid, one call of `clustering` completes and gives
each point `i` (coordinates unchanged) the cluster index `j < num_ctrds` of a
centroid, taken at its position on entry, such that no centroid is strictly
closer and every centroid with a smaller index is strictly farther. -/
theorem clustering_assigns_nearest (pts : List Point) (ctrds : List Centroid)
    (hne : ctrds ≠ []) :
    ∃ pts1 ctrds1, clustering pts ctrds = some (pts1, ctrds1) ∧ pts1.length = pts.length ∧
      ∀ (i : Nat) (p : Point), pts[i]? = some p →
        ∃ q cj, pts1[i]? = some q ∧ q.x = p.x ∧ q.y = p.y ∧
          q.cluster < ctrds.length ∧ ctrds[q.cluster]? = some cj ∧
          (∀ (k : Nat) (c : Centroid), ctrds[k]? = some c → dist p cj ≤ dist p c) ∧
          (∀ (k : Nat) (c : Centroid), k < q.cluster → ctrds[k]? = some c →
            dist p cj < dist p c) := by
  obtain ⟨acc, hcl, _, _⟩ := clustering_eq pts ctrds hne
  refine ⟨_, _, hcl, by simp, ?_⟩
  intro i p hp
  obtain ⟨m, ⟨cj, hcj, hm⟩, hall, hlow⟩ := assign_spec p ctrds hne
  refine ⟨assign ctrds p, cj, ?_, rfl, rfl, assign_cluster_lt p ctrds hne, hcj, ?_, ?_⟩
  · rw [List.getElem?_map, hp]
    rfl
  · intro k c hk
    rw [hm]
    exact hall k c hk
  · intro k c hlt hk
    rw [hm]
    exact hlow k c hlt hk

theorem clustering_assigns_nearest_witness :
    ([⟨0, 0, 0⟩, ⟨4, 0, 0⟩] : List Centroid) ≠ [] ∧
    ∃ pts1 ctrds1, clustering [⟨0, 0, 0⟩, ⟨4, 0, 0⟩, ⟨2, 0, 0⟩] [⟨0, 0, 0⟩, ⟨4, 0, 0⟩]
        = some (pts1, ctrds1) ∧
      pts1.length = ([⟨0, 0, 0⟩, ⟨4, 0, 0⟩, ⟨2, 0, 0⟩] : List Point).length ∧
      ∀ (i : Nat) (p : Point), ([⟨0, 0, 0⟩, ⟨4, 0, 0⟩, ⟨2, 0, 0⟩] : List Point)[i]? = some p →
        ∃ q cj, pts1[i]? = some q ∧ q.x = p.x ∧ q.y = p.y ∧
          q.cluster < ([⟨0, 0, 0⟩, ⟨4, 0, 0⟩] : List Centroid).length ∧
          ([⟨0, 0, 0⟩, ⟨4, 0, 0⟩] : List Centroid)[q.cluster]? = some cj ∧
          (∀ (k : Nat) (c : Centroid),
            ([⟨0, 0, 0⟩, ⟨4, 0, 0⟩] : List Centroid)[k]? = some c → dist p cj ≤ dist p c) ∧
          (∀ (k : Nat) (c : Centroid), k < q.cluster →
            ([⟨0, 0, 0⟩, ⟨4, 0, 0⟩] : List Centroid)[k]? = some c → dist p cj < dist p c) :=
  ⟨by simp, clustering_assigns_nearest _ _ (by simp)⟩

/-- C2: with at least one centroid, one call of `clustering` completes and
leaves in each centroid `j` the number of points assigned to `j` in that call
and, when that number is positive, the mean of their `x` and of their `y`. -/
theorem clustering_updates_mean (pts : List Point) (ctrds : List Centroid)
    (hne : ctrds ≠ []) :
    ∃ pts1 ctrds1, clustering pts ctrds = some (pts1, ctrds1) ∧
      ctrds1.length = ctrds.length ∧
      ∀ (j : Nat) (c : Centroid), ctrds1[j]? = some c →
        c.num_points = ((members pts1 j).length : Int) ∧
        (0 < (members pts1 j).length →
          c.x = ((members pts1 j).map Point.x).sum / ((members pts1 j).length : ℚ) ∧
          c.y = ((members pts1 j).map Point.y).sum / ((members pts1 j).length : ℚ)) := by
  obtain ⟨acc, hcl, hlen, hacc⟩ := clustering_eq pts ctrds hne
  refine ⟨_, _, hcl, by simp [hlen], ?_⟩
  intro j c hc
  have hj : j < ctrds.length := by
    rcases Nat.lt_or_ge j ctrds.length with h1 | h1
    · exact h1
    · rw [List.getElem?_eq_none (by simp [hlen, h1])] at hc
      cases hc
  have hc1 : c = new_centroid (add_all ⟨0, 0, 0⟩ (members (pts.map (assign ctrds)) j)) := by
    rw [List.getElem?_zipWith, hacc j hj, List.getElem?_eq_getElem hj] at hc
    simpa using hc.symm
  subst hc1
  refine ⟨by simp [new_centroid, add_all], ?_⟩
  intro _
  constructor <;> simp [new_centroid, add_all]

theorem clustering_updates_mean_witness :
    ([⟨0, 0, 0⟩, ⟨4, 0, 0⟩] : List Centroid) ≠ [] ∧
    ∃ pts1 ctrds1, clustering [⟨0, 0, 0⟩, ⟨4, 0, 0⟩, ⟨1, 0, 0⟩] [⟨0, 0, 0⟩, ⟨4, 0, 0⟩]
        = some (pts1, ctrds1) ∧
      ctrds1.length = ([⟨0, 0, 0⟩, ⟨4, 0, 0⟩] : List Centroid).length ∧
      ∀ (j : Nat) (c : Centroid), ctrds1[j]? = some c →
        c.num_points = ((members pts1 j).length : Int) ∧
        (0 < (members pts1 j).length →
          c.x = ((members pts1 j).map Point.x).sum / ((members pts1 j).length : ℚ) ∧
          c.y = ((members pts1 j).map Point.y).sum / ((members pts1 j).length : ℚ)) :=
  ⟨by simp, clustering_updates_mean _ _ (by simp)⟩

/-! ## Nearest-centroid search of kernel `kMeans` -/

theorem visits_block (S q r : Nat) (hr : r ≤ S) :
    (List.range r).map (fun k => (q * S + k, q, k))
      = (List.range' (q * S) r).map (fun i => (i, i / S, i % S)) := by
  rw [List.range'_eq_map_range, List.map_map]
  apply List.map_congr_left
  intro k hk
  have hk1 : k < S := lt_of_lt_of_le (List.mem_range.mp hk) hr
  have hS : 0 < S := by omega
  have h1 : (q * S + k) / S = q := by
    rw [Nat.mul_comm, Nat.mul_add_div hS, Nat.div_eq_of_lt hk1, Nat.add_zero]
  have h2 : (q * S + k) % S = k := by
    rw [Nat.mul_comm, Nat.mul_add_mod, Nat.mod_eq_of_lt hk1]
  simp [h1, h2]

theorem visits_groups (S : Nat) :
    ∀ (n a : Nat), (List.range' a n).flatMap
        (fun j => (List.range S).map (fun k => (j * S + k, j, k)))
      = (List.range' (a * S) (n * S)).map (fun i => (i, i / S, i % S))
  | 0, a => by simp
  | n + 1, a => by
    rw [List.range'_succ, List.flatMap_cons, visits_groups S n (a + 1),
      visits_block S a S (Nat.le_refl S), ← List.map_append]
    have h : (a + 1) * S = a * S + S := by ring
    rw [h, List.range'_append_1]
    congr 2
    ring

theorem kernel_visits_eq (S NCA e : Nat) (hS : S = 2 ^ e) (h1 : S ≤ NCA) :
    kernel_visits S NCA = (List.range' 1 (NCA - 1)).map (fun i => (i, i / S, i % S)) := by
  have hpos : 0 < S := by
    rw [hS]
    exact Nat.pow_pos (by decide)
  have hand : NCA &&& (S - 1) = NCA % S := by
    rw [hS]
    exact Nat.and_pow_two_sub_one_eq_mod NCA e
  have hq : 1 ≤ NCA / S := (Nat.one_le_div_iff hpos).mpr h1
  have hdm : S * (NCA / S) + NCA % S = NCA := Nat.div_add_mod NCA S
  have hr : NCA % S < S := Nat.mod_lt NCA hpos
  unfold kernel_visits
  rw [hand, visits_groups, visits_block S (NCA / S) (NCA % S) (le_of_lt hr)]
  have hfirst : (List.range' 1 (S - 1)).map (fun j => (j, 0, j))
      = (List.range' 1 (S - 1)).map (fun i => (i, i / S, i % S)) := by
    apply List.map_congr_left
    intro j hj
    have hj1 : j < S := by
      have := List.mem_range'_1.mp hj
      omega
    simp [Nat.div_eq_of_lt hj1, Nat.mod_eq_of_lt hj1]
  rw [hfirst, ← List.map_append, ← List.map_append]
  obtain ⟨q, hq1⟩ : ∃ q, NCA / S = q + 1 := ⟨NCA / S - 1, by omega⟩
  rw [hq1] at hdm ⊢
  have hmul : S * (q + 1) = q * S + S := by ring
  have hmul2 : (q + 1) * S = q * S + S := by ring
  rw [hmul] at hdm
  simp only [Nat.add_sub_cancel, Nat.one_mul, hmul2]
  have e1 : List.range' 1 (S - 1) ++ List.range' S (q * S) = List.range' 1 (q * S + (S - 1)) := by
    have := List.range'_append_1 1 (S - 1) (q * S)
    rw [show 1 + (S - 1) = S by omega] at this
    exact this
  have e2 : List.range' 1 (q * S + (S - 1)) ++ List.range' (q * S + S) (NCA % S)
      = List.range' 1 (NCA % S + (q * S + (S - 1))) := by
    have := List.range'_append_1 1 (q * S + (S - 1)) (NCA % S)
    rw [show 1 + (q * S + (S - 1)) = q * S + S by omega] at this
    exact this
  rw [e1, e2]
  congr 2
  omega

theorem foldl_flatMap_eq {α β γ : Type} (f : γ → β → γ) (g : α → List β) :
    ∀ (l : List α) (init : γ),
      (l.flatMap g).foldl f init = l.foldl (fun st a => (g a).foldl f st) init
  | [], init => by simp
  | a :: l, init => by
    rw [List.flatMap_cons, List.foldl_append, List.foldl_cons, foldl_flatMap_eq f g l]

/-- The three loops of the search are one traversal of `kernel_visits`. -/
theorem kernel_search_eq_fold (S NCA NCALLOC : Nat) (kc4 : List Centroid4) (px py : ℚ) :
    kernel_search S NCA NCALLOC kc4 px py
      = (kernel_visits S NCA).foldl
          (fun st v => merge_step px py (row_x (load_centroids S NCALLOC kc4) v.2.1 v.2.2)
            (row_y (load_centroids S NCALLOC kc4) v.2.1 v.2.2) v.1 st)
          (0, (px - row_x (load_centroids S NCALLOC kc4) 0 0)
                * (px - row_x (load_centroids S NCALLOC kc4) 0 0)
              + (py - row_y (load_centroids S NCALLOC kc4) 0 0)
                * (py - row_y (load_centroids S NCALLOC kc4) 0 0)) := by
  simp only [kernel_search, kernel_visits, List.foldl_append, List.foldl_map, foldl_flatMap_eq]

theorem isNearest_unique (p : Point) (cs : List Centroid) (m1 m2 : ℚ) (i1 i2 : Nat)
    (h1 : IsNearest p cs m1 i1) (h2 : IsNearest p cs m2 i2) : i1 = i2 := by
  obtain ⟨⟨c1, hc1, hm1⟩, hall1, hlow1⟩ := h1
  obtain ⟨⟨c2, hc2, hm2⟩, hall2, hlow2⟩ := h2
  rcases Nat.lt_trichotomy i1 i2 with h | h | h
  · have ha := hlow2 i1 c1 h hc1
    have hb := hall1 i2 c2 hc2
    rw [hm1] at ha
    rw [hm2] at hb
    exact absurd ha (not_lt.mpr hb)
  · exact h
  · have ha := hlow1 i2 c2 h hc2
    have hb := hall2 i1 c1 hc1
    rw [hm2] at ha
    rw [hm1] at hb
    exact absurd ha (not_lt.mpr hb)

theorem search_fold_spec (p : Point) (ctrds : List Centroid) (rx ry : Nat → ℚ)
    (hr : ∀ (i : Nat) (c : Centroid), ctrds[i]? = some c → rx i = c.x ∧ ry i = c.y) :
    ∀ (n a : Nat) (st : Nat × ℚ), a + n ≤ ctrds.length →
      IsNearest p (ctrds.take a) st.2 st.1 →
      IsNearest p (ctrds.take (a + n))
        ((List.range' a n).foldl (fun st i => merge_step p.x p.y (rx i) (ry i) i st) st).2
        ((List.range' a n).foldl (fun st i => merge_step p.x p.y (rx i) (ry i) i st) st).1
  | 0, a, st, _, h => by simpa using h
  | n + 1, a, st, hle, h => by
    have ha : a < ctrds.length := by omega
    have hstep := isNearest_step p (ctrds.take a) ctrds[a] st.2 st.1 h
    rw [List.take_concat_get' ctrds a ha, List.length_take, Nat.min_eq_left (le_of_lt ha)] at hstep
    obtain ⟨hx, hy⟩ := hr a ctrds[a] (List.getElem?_eq_getElem ha)
    have hm : merge_step p.x p.y (rx a) (ry a) a st
        = (if dist p ctrds[a] < st.2 then a else st.1,
           if dist p ctrds[a] < st.2 then dist p ctrds[a] else st.2) := by
      simp only [merge_step, dist, hx, hy]
    have hrec := search_fold_spec p ctrds rx ry hr n (a + 1)
      (merge_step p.x p.y (rx a) (ry a) a st) (by omega) (by rw [hm]; exact hstep)
    rw [List.range'_succ, List.foldl_cons]
    rw [show a + (n + 1) = a + 1 + n by omega]
    exact hrec

theorem row_of_packs (S NCALLOC : Nat) (kc4 : List Centroid4) (ctrds : List Centroid)
    (hpack : PacksCentroids S NCALLOC kc4 ctrds) (i : Nat) (c : Centroid)
    (hc : ctrds[i]? = some c) :
    row_x (load_centroids S NCALLOC kc4) (i / S) (i % S) = c.x ∧
    row_y (load_centroids S NCALLOC kc4) (i / S) (i % S) = c.y := by
  obtain ⟨hlt, g, hg, hx, hy⟩ := hpack i c hc
  have hload : (load_centroids S NCALLOC kc4)[i / S]? = some g := by
    unfold load_centroids
    rw [List.getElem?_take_of_lt hlt]
    exact hg
  simp [row_x, row_y, hload, List.getD_eq_getElem?_getD, hx, hy]

/-- C3 (as stated, refuted): with `SIMD_SIZE = 3`, `NUM_CENTROIDS_ACTUAL = 4`,
`NUM_CENTROIDS_ALLOCATED = 6` the bounds `3 ≤ 4 ≤ 6` hold and the packed groups
hold the four centroids in lane order, yet for the point `(11, 0)` the kernel
search returns cluster 2 while `clustering` assigns cluster 3: the remainder
loop runs `4 & 2 = 0` times and centroid 3 is never visited. -/
theorem kernel_search_counterexample :
    (3 ≤ 4 ∧ 4 ≤ 6) ∧
    PacksCentroids 3 6
      [⟨[0, 4, 8], [0, 0, 0], [0, 0, 0]⟩, ⟨[12, 0, 0], [0, 0, 0], [0, 0, 0]⟩]
      [⟨0, 0, 0⟩, ⟨4, 0, 0⟩, ⟨8, 0, 0⟩, ⟨12, 0, 0⟩] ∧
    (kernel_search 3 4 6
      [⟨[0, 4, 8], [0, 0, 0], [0, 0, 0]⟩, ⟨[12, 0, 0], [0, 0, 0], [0, 0, 0]⟩] 11 0).1 = 2 ∧
    (assign [⟨0, 0, 0⟩, ⟨4, 0, 0⟩, ⟨8, 0, 0⟩, ⟨12, 0, 0⟩] ⟨11, 0, 0⟩).cluster = 3 ∧
    (0 :: (kernel_visits 3 4).map (fun v => v.1)) = [0, 1, 2] := by
  refine ⟨by decide, ?_, by decide!, by decide!, by decide⟩
  intro i c hc
  match i, hc with
  | 0, hc => simp at hc; subst hc; simp
  | 1, hc => simp at hc; subst hc; simp
  | 2, hc => simp at hc; subst hc; simp
  | 3, hc => simp at hc; subst hc; simp
  | n + 4, hc => simp at hc

/-- Under the hypotheses of the amended claim the search of one lane returns
the index that `clustering` assigns. -/
theorem kernel_search_eq_assign (S NCA NCALLOC e : Nat) (hS : S = 2 ^ e) (h1 : S ≤ NCA)
    (ctrds : List Centroid) (hlen : ctrds.length = NCA)
    (kc4 : List Centroid4) (hpack : PacksCentroids S NCALLOC kc4 ctrds) (p : Point) :
    (kernel_search S NCA NCALLOC kc4 p.x p.y).1 = (assign ctrds p).cluster := by
  have hpos : 0 < S := by
    rw [hS]
    exact Nat.pow_pos (by decide)
  have hNCA : 0 < NCA := lt_of_lt_of_le hpos h1
  have hvis := kernel_visits_eq S NCA e hS h1
  have h0 : 0 < ctrds.length := by omega
  have hne : ctrds ≠ [] := List.ne_nil_of_length_pos h0
  obtain ⟨m, hscalar⟩ := assign_spec p ctrds hne
  obtain ⟨hx0, hy0⟩ := row_of_packs S NCALLOC kc4 ctrds hpack 0 ctrds[0]
    (List.getElem?_eq_getElem h0)
  simp only [Nat.zero_div, Nat.zero_mod] at hx0 hy0
  have hinit : IsNearest p (ctrds.take 1) (dist p ctrds[0]) 0 := by
    have htake : ctrds.take 1 = [ctrds[0]] := by
      cases ctrds with
      | nil => exact absurd rfl hne
      | cons c rest => simp
    rw [htake]
    refine ⟨⟨ctrds[0], rfl, rfl⟩, ?_, ?_⟩
    · intro k c hk
      cases k with
      | zero =>
        simp at hk
        rw [hk]
      | succ k => simp at hk
    · intro k c hk
      omega
  have hfold := search_fold_spec p ctrds
    (fun i => row_x (load_centroids S NCALLOC kc4) (i / S) (i % S))
    (fun i => row_y (load_centroids S NCALLOC kc4) (i / S) (i % S))
    (row_of_packs S NCALLOC kc4 ctrds hpack) (NCA - 1) 1 (0, dist p ctrds[0])
    (by omega) hinit
  rw [show 1 + (NCA - 1) = ctrds.length by omega, List.take_length] at hfold
  have hk : kernel_search S NCA NCALLOC kc4 p.x p.y
      = (List.range' 1 (NCA - 1)).foldl
          (fun st i => merge_step p.x p.y
            (row_x (load_centroids S NCALLOC kc4) (i / S) (i % S))
            (row_y (load_centroids S NCALLOC kc4) (i / S) (i % S)) i st)
          (0, dist p ctrds[0]) := by
    rw [kernel_search_eq_fold, hvis, List.foldl_map, hx0, hy0]
    rfl
  rw [hk]
  exact isNearest_unique p ctrds _ _ _ _ hfold hscalar

/-- Lane `l` of the stored cluster vector is the result of the search for the
point in lane `l`. -/
theorem kernel_cluster_lane (S NCA NCALLOC : Nat) (kc4 : List Centroid4) (g : Point4)
    (l : Nat) (x y : ℚ) (hx : g.x[l]? = some x) (hy : g.y[l]? = some y) :
    (kernel_cluster S NCA NCALLOC kc4 g)[l]? = some (kernel_search S NCA NCALLOC kc4 x y).1 := by
  simp [kernel_cluster, List.getElem?_zipWith, hx, hy]

/-- C3 (amended): for `SIMD_SIZE` a power of two with
`SIMD_SIZE ≤ NUM_CENTROIDS_ACTUAL ≤ NUM_CENTROIDS_ALLOCATED`, and packed groups
holding the scalar centroids in lane order, the cluster index the kernel search
computes for a point, and stores for the lane holding that point, equals the
index `clustering` assigns to the same point; the search is the traversal
`kernel_visits` of its three loops, which, after the initialisation from
centroid 0, visit the indices
`0 .. NUM_CENTROIDS_ACTUAL - 1` once each in increasing order, reading index
`i` from group `i / SIMD_SIZE`, lane `i % SIMD_SIZE`. -/
theorem kernel_search_eq_scalar (S NCA NCALLOC e : Nat) (hS : S = 2 ^ e) (h1 : S ≤ NCA)
    (_h2 : NCA ≤ NCALLOC) (ctrds : List Centroid) (hlen : ctrds.length = NCA)
    (kc4 : List Centroid4) (hpack : PacksCentroids S NCALLOC kc4 ctrds) :
    (∀ p : Point, (kernel_search S NCA NCALLOC kc4 p.x p.y).1 = (assign ctrds p).cluster) ∧
    (∀ (g : Point4) (l : Nat) (p : Point), g.x[l]? = some p.x → g.y[l]? = some p.y →
      (kernel_cluster S NCA NCALLOC kc4 g)[l]? = some (assign ctrds p).cluster) ∧
    (∀ px py : ℚ, kernel_search S NCA NCALLOC kc4 px py
      = (kernel_visits S NCA).foldl
          (fun st v => merge_step px py (row_x (load_centroids S NCALLOC kc4) v.2.1 v.2.2)
            (row_y (load_centroids S NCALLOC kc4) v.2.1 v.2.2) v.1 st)
          (0, (px - row_x (load_centroids S NCALLOC kc4) 0 0)
                * (px - row_x (load_centroids S NCALLOC kc4) 0 0)
              + (py - row_y (load_centroids S NCALLOC kc4) 0 0)
                * (py - row_y (load_centroids S NCALLOC kc4) 0 0))) ∧
    0 :: (kernel_visits S NCA).map (fun v => v.1) = List.range NCA ∧
    ∀ v ∈ kernel_visits S NCA, v.2 = (v.1 / S, v.1 % S) := by
  have hpos : 0 < S := by
    rw [hS]
    exact Nat.pow_pos (by decide)
  have hNCA : 0 < NCA := lt_of_lt_of_le hpos h1
  have hvis := kernel_visits_eq S NCA e hS h1
  refine ⟨?_, ?_, ?_, ?_, ?_⟩
  · intro p
    exact kernel_search_eq_assign S NCA NCALLOC e hS h1 ctrds hlen kc4 hpack p
  · intro g l p hx hy
    rw [kernel_cluster_lane S NCA NCALLOC kc4 g l p.x p.y hx hy,
      kernel_search_eq_assign S NCA NCALLOC e hS h1 ctrds hlen kc4 hpack p]
  · intro px py
    exact kernel_search_eq_fold S NCA NCALLOC kc4 px py
  · rw [hvis, List.map_map]
    have hid : (List.range' 1 (NCA - 1)).map
        ((fun v : Nat × Nat × Nat => v.1) ∘ fun i => (i, i / S, i % S))
        = List.range' 1 (NCA - 1) := by
      simp [Function.comp_def]
    rw [hid, List.range_eq_range']
    have := List.range'_succ 0 (NCA - 1) 1
    rw [show NCA - 1 + 1 = NCA by omega] at this
    rw [this]
  · intro v hv
    rw [hvis] at hv
    obtain ⟨i, _, rfl⟩ := List.mem_map.mp hv
    rfl

theorem kernel_search_eq_scalar_witness :
    (2 = 2 ^ 1 ∧ 2 ≤ 3 ∧ 3 ≤ 4 ∧
      ([⟨0, 0, 0⟩, ⟨4, 0, 0⟩, ⟨8, 0, 0⟩] : List Centroid).length = 3 ∧
      PacksCentroids 2 4 [⟨[0, 4], [0, 0], [0, 0]⟩, ⟨[8, 0], [0, 0], [0, 0]⟩]
        [⟨0, 0, 0⟩, ⟨4, 0, 0⟩, ⟨8, 0, 0⟩]) ∧
    ((∀ p : Point,
      (kernel_search 2 3 4 [⟨[0, 4], [0, 0], [0, 0]⟩, ⟨[8, 0], [0, 0], [0, 0]⟩] p.x p.y).1
        = (assign [⟨0, 0, 0⟩, ⟨4, 0, 0⟩, ⟨8, 0, 0⟩] p).cluster) ∧
    (∀ (g : Point4) (l : Nat) (p : Point), g.x[l]? = some p.x → g.y[l]? = some p.y →
      (kernel_cluster 2 3 4 [⟨[0, 4], [0, 0], [0, 0]⟩, ⟨[8, 0], [0, 0], [0, 0]⟩] g)[l]?
        = some (assign [⟨0, 0, 0⟩, ⟨4, 0, 0⟩, ⟨8, 0, 0⟩] p).cluster) ∧
    (∀ px py : ℚ,
      kernel_search 2 3 4 [⟨[0, 4], [0, 0], [0, 0]⟩, ⟨[8, 0], [0, 0], [0, 0]⟩] px py
      = (kernel_visits 2 3).foldl
          (fun st v => merge_step px py
            (row_x (load_centroids 2 4
              [⟨[0, 4], [0, 0], [0, 0]⟩, ⟨[8, 0], [0, 0], [0, 0]⟩]) v.2.1 v.2.2)
            (row_y (load_centroids 2 4
              [⟨[0, 4], [0, 0], [0, 0]⟩, ⟨[8, 0], [0, 0], [0, 0]⟩]) v.2.1 v.2.2) v.1 st)
          (0, (px - row_x (load_centroids 2 4
                  [⟨[0, 4], [0, 0], [0, 0]⟩, ⟨[8, 0], [0, 0], [0, 0]⟩]) 0 0)
                * (px - row_x (load_centroids 2 4
                  [⟨[0, 4], [0, 0], [0, 0]⟩, ⟨[8, 0], [0, 0], [0, 0]⟩]) 0 0)
              + (py - row_y (load_centroids 2 4
                  [⟨[0, 4], [0, 0], [0, 0]⟩, ⟨[8, 0], [0, 0], [0, 0]⟩]) 0 0)
                * (py - row_y (load_centroids 2 4
                  [⟨[0, 4], [0, 0], [0, 0]⟩, ⟨[8, 0], [0, 0], [0, 0]⟩]) 0 0))) ∧
    0 :: (kernel_visits 2 3).map (fun v => v.1) = List.range 3 ∧
    ∀ v ∈ kernel_visits 2 3, v.2 = (v.1 / 2, v.1 % 2)) := by
  have hp : PacksCentroids 2 4 [⟨[0, 4], [0, 0], [0, 0]⟩, ⟨[8, 0], [0, 0], [0, 0]⟩]
      [⟨0, 0, 0⟩, ⟨4, 0, 0⟩, ⟨8, 0, 0⟩] := by
    intro i c hc
    match i, hc with
    | 0, hc => simp at hc; subst hc; simp
    | 1, hc => simp at hc; subst hc; simp
    | 2, hc => simp at hc; subst hc; simp
    | n + 3, hc => simp at hc
  exact ⟨⟨by decide, by decide, by decide, by decide, hp⟩,
    kernel_search_eq_scalar 2 3 4 1 (by decide) (by decide) (by decide) _ (by decide) _ hp⟩

/-! ## Comparator -/

/-- Advancing the lane counters (`k++; if (k == SIMD_SIZE) { k = 0; j++; }`)
keeps `j = i / SIMD_SIZE` and `k = i % SIMD_SIZE`. -/
theorem lane_counters_step (S i : Nat) (hS : 0 < S) :
    (if i % S + 1 = S then (i / S + 1, 0) else (i / S, i % S + 1))
      = ((i + 1) / S, (i + 1) % S) := by
  have hdm : S * (i / S) + i % S = i := Nat.div_add_mod i S
  have hlt : i % S < S := Nat.mod_lt i hS
  by_cases h : i % S + 1 = S
  · have hi : i + 1 = S * (i / S + 1) := by
      rw [Nat.mul_add, Nat.mul_one]
      omega
    rw [if_pos h, hi, Nat.mul_div_cancel_left _ hS, Nat.mul_mod_right]
  · have hlt1 : i % S + 1 < S := by omega
    have hi : i + 1 = S * (i / S) + (i % S + 1) := by omega
    have h1 : (S * (i / S) + (i % S + 1)) / S = i / S := by
      rw [Nat.mul_add_div hS, Nat.div_eq_of_lt hlt1, Nat.add_zero]
    have h2 : (S * (i / S) + (i % S + 1)) % S = i % S + 1 := by
      rw [Nat.mul_add_mod, Nat.mod_eq_of_lt hlt1]
    rw [if_neg h]
    conv_rhs => rw [hi]
    rw [h1, h2]

theorem max_float_eq (a b : ℚ) : max_float a b = max a b := by
  unfold max_float
  split_ifs with h
  · exact (max_eq_left (le_of_lt h)).symm
  · exact (max_eq_right (not_lt.mp h)).symm

theorem verify_loop_true (S : Nat) (hS : 0 < S) (c4 : List Centroid4) (cs : List Centroid) :
    ∀ (n i : Nat), verify_loop S c4 cs n i (i / S) (i % S) = some true →
      ∀ t : Nat, i ≤ t → t < i + n → VerifiedAt S c4 cs t
  | 0, i, _, t, h1, h2 => by omega
  | n + 1, i, h, t, h1, h2 => by
    unfold verify_loop at h
    cases hg : c4[i / S]? with
    | none => simp [hg] at h
    | some g =>
      cases hc : cs[i]? with
      | none => simp [hg, hc] at h
      | some c =>
        cases hgx : g.x[i % S]? with
        | none => simp [hg, hc, hgx] at h
        | some gx =>
          cases hgy : g.y[i % S]? with
          | none => simp [hg, hc, hgx, hgy] at h
          | some gy =>
            cases hgn : g.num_points[i % S]? with
            | none => simp [hg, hc, hgx, hgy, hgn] at h
            | some gn =>
              simp only [hg, hc, hgx, hgy, hgn] at h
              split_ifs at h with hz herr hk
              · cases h
              · have hrec := verify_loop_true S hS c4 cs n (i + 1)
                have hstep := lane_counters_step S i hS
                rw [if_pos hk] at hstep
                obtain ⟨hj1, hk1⟩ := Prod.mk.inj hstep
                rw [← hj1, ← hk1] at hrec
                rcases Nat.eq_or_lt_of_le h1 with he | hl
                · subst he
                  simp only [not_or, not_le] at herr
                  exact ⟨g, c, gx, gy, gn, hg, hc, hgx, hgy, hgn,
                    by simpa [rel_err, max_float_eq] using herr.1,
                    by simpa [rel_err, max_float_eq] using herr.2.1, herr.2.2⟩
                · exact hrec h t (by omega) (by omega)
              · have hrec := verify_loop_true S hS c4 cs n (i + 1)
                have hstep := lane_counters_step S i hS
                rw [if_neg hk] at hstep
                obtain ⟨hj1, hk1⟩ := Prod.mk.inj hstep
                rw [← hj1, ← hk1] at hrec
                rcases Nat.eq_or_lt_of_le h1 with he | hl
                · subst he
                  simp only [not_or, not_le] at herr
                  exact ⟨g, c, gx, gy, gn, hg, hc, hgx, hgy, hgn,
                    by simpa [rel_err, max_float_eq] using herr.1,
                    by simpa [rel_err, max_float_eq] using herr.2.1, herr.2.2⟩
                · exact hrec h t (by omega) (by omega)

/-- What `verify_result` does establish when it returns `true`: for every
`i < NUM_CENTROIDS_ACTUAL` the relative errors of `x` and of `y` between
`centroids4[i / SIMD_SIZE]` lane `i % SIMD_SIZE` and `centroids[i]` are below
0.002; for the count only the truncated integer quotient is below 0.002. -/
theorem verify_result_true (S NCA : Nat) (hS : 0 < S) (c4 : List Centroid4)
    (cs : List Centroid) (h : verify_result S NCA c4 cs = some true) :
    ∀ i : Nat, i < NCA → VerifiedAt S c4 cs i := by
  intro i hi
  have h0 : verify_loop S c4 cs NCA 0 (0 / S) (0 % S) = some true := by
    simpa [verify_result] using h
  exact verify_loop_true S hS c4 cs NCA 0 h0 i (Nat.zero_le i) (by omega)

/-- C4 (code at the failing input): with `SIMD_SIZE = 2` and three centroids
whose coordinates agree, `verify_result` returns `true` although the point
counts are 100 against 150, 10 against 19 and 7 against 4; the relative error
of the first count is 1/3, not below 0.002. The `int` quotient
`abs(100 - 150) / max(100, 150)` truncates to 0. -/
theorem verify_result_count_slip :
    verify_result 2 3 [⟨[1, 2], [1, 2], [100, 10]⟩, ⟨[3, 0], [3, 0], [7, 0]⟩]
      [⟨1, 1, 150⟩, ⟨2, 2, 19⟩, ⟨3, 3, 4⟩] = some true ∧
    rel_err 100 150 = 1 / 3 ∧ ¬ rel_err 100 150 < 0.002 := by
  refine ⟨by decide!, ?_, ?_⟩ <;> norm_num [rel_err, abs_of_nonneg, abs_of_neg]

/-! ## Reading loop -/

theorem take_until_append (delim : Char) :
    ∀ (s tail : List Char), delim ∉ s →
      take_until delim (s ++ delim :: tail) = (s, some tail)
  | [], tail, _ => by simp [take_until]
  | c :: s, tail, h => by
    have hc : c ≠ delim := by
      intro hcd
      exact h (by simp [hcd])
    have hs : delim ∉ s := by
      intro hmem
      exact h (List.mem_cons_of_mem _ hmem)
    simp [take_until, hc, take_until_append delim s tail hs]

theorem getline_field (delim : Char) (s tail str : List Char) (h : delim ∉ s) :
    getline ⟨s ++ delim :: tail, false, false⟩ str delim = (⟨tail, false, false⟩, s) := by
  simp [getline, take_until_append delim s tail h]

theorem getline_empty (delim : Char) (str : List Char) :
    getline ⟨[], false, false⟩ str delim = (⟨[], true, true⟩, []) := by
  simp [getline, take_until]

theorem lane_index_ne (S i t : Nat) (h : t ≠ i) (hd : t / S = i / S) :
    t % S ≠ i % S := by
  intro hm
  apply h
  rw [← Nat.div_add_mod t S, ← Nat.div_add_mod i S, hd, hm]

/-- Effect of the two packed stores of the loop body on the lanes. -/
theorem store_lane (S : Nat) (points4 : List Point4) (i : Nat) (g : Point4)
    (hg : points4[i / S]? = some g) (hlx : i % S < g.x.length) (hly : i % S < g.y.length)
    (x y : ℚ) (t : Nat) :
    lane_x4 S (points4.set (i / S)
        { g with x := g.x.set (i % S) x, y := g.y.set (i % S) y }) t
      = (if t = i then some x else lane_x4 S points4 t) ∧
    lane_y4 S (points4.set (i / S)
        { g with x := g.x.set (i % S) x, y := g.y.set (i % S) y }) t
      = (if t = i then some y else lane_y4 S points4 t) := by
  have hj : i / S < points4.length := by
    rcases Nat.lt_or_ge (i / S) points4.length with h1 | h1
    · exact h1
    · rw [List.getElem?_eq_none h1] at hg
      cases hg
  by_cases ht : t = i
  · subst ht
    simp [lane_x4, lane_y4, List.getElem?_set_self hj, List.getElem?_set_self hlx,
      List.getElem?_set_self hly]
  · by_cases hd : t / S = i / S
    · have hm := lane_index_ne S i t ht hd
      simp [lane_x4, lane_y4, hd, ht, List.getElem?_set_self hj, hg,
        List.getElem?_set_ne (Ne.symm hm)]
    · simp [lane_x4, lane_y4, ht, List.getElem?_set_ne (Ne.symm hd)]

theorem lt_length_of_getElem? {α : Type} (v : List α) (i : Nat) (a : α)
    (h : v[i]? = some a) : i < v.length := by
  rcases Nat.lt_or_ge i v.length with h1 | h1
  · exact h1
  · rw [List.getElem?_eq_none h1] at h
    cases h

/-- The loop body on a state whose two conversions succeed and whose stores
are inside the blocks. -/
theorem read_body_eq (stof : List Char → Option ℚ) (S : Nat) (st : ReadState) (x y : ℚ)
    (is2 : IStream) (s : List Char) (p : Point) (g : Point4)
    (hx : stof st.first = some x)
    (hg2 : getline st.infile st.second '\n' = (is2, s))
    (hy : stof s = some y)
    (hp : st.points[st.i]? = some p) (hg : st.points4[st.j]? = some g)
    (hkx : st.k < g.x.length) (hky : st.k < g.y.length) :
    read_body stof S st = Except.ok
      { infile := is2, first := st.first, second := s, i := st.i + 1,
        j := if st.k + 1 = S then st.j + 1 else st.j,
        k := if st.k + 1 = S then 0 else st.k + 1,
        points := st.points.set st.i { p with x := x, y := y },
        points4 := st.points4.set st.j
          { g with x := g.x.set st.k x, y := g.y.set st.k y } } := by
  have hi := lt_length_of_getElem? _ _ _ hp
  have hj := lt_length_of_getElem? _ _ _ hg
  unfold read_body
  rw [hg2]
  simp [stof_or_throw, hx, hy, load, store, hp, hg, hi, hj, hkx, hky, bind, Except.bind]

theorem shaped4_set (S : Nat) (points4 : List Point4) (j : Nat) (g : Point4)
    (h : Shaped4 S points4) (hg : g.x.length = S ∧ g.y.length = S) :
    Shaped4 S (points4.set j g) := by
  intro g1 hg1
  rcases List.mem_or_eq_of_mem_set hg1 with h1 | h1
  · exact h g1 h1
  · rw [h1]
    exact hg

/-- One pass of the reading loop over a record whose fields the two `getline`
calls deliver: the pass stores the pair at index `i`, in `points` and in lane
`i % S` of group `i / S`, touches nothing else, and advances the counters. -/
theorem read_pass (stof : List Char → Option ℚ) (S NP : Nat) (hS : 0 < S) (fuel : Nat)
    (st : ReadState) (r : Record) (is1 is2 : IStream)
    (hg1 : getline st.infile st.first ',' = (is1, r.first)) (hf1 : is1.fail = false)
    (hg2 : getline is1 st.second '\n' = (is2, r.second))
    (hx : stof r.first = some r.x) (hy : stof r.second = some r.y)
    (hj : st.j = st.i / S) (hk : st.k = st.i % S) (hi : st.i < NP)
    (hlen : st.points.length = NP) (hshape : Shaped4 S st.points4)
    (hroom : st.i < st.points4.length * S) :
    ∃ st2, read_loop stof S NP (fuel + 1) st = read_loop stof S NP fuel st2 ∧
      st2.infile = is2 ∧ st2.i = st.i + 1 ∧ st2.j = st2.i / S ∧ st2.k = st2.i % S ∧
      st2.points.length = NP ∧ st2.points4.length = st.points4.length ∧
      Shaped4 S st2.points4 ∧
      (∃ p, st.points[st.i]? = some p ∧
        st2.points[st.i]? = some { p with x := r.x, y := r.y }) ∧
      lane_x4 S st2.points4 st.i = some r.x ∧ lane_y4 S st2.points4 st.i = some r.y ∧
      (∀ t : Nat, t ≠ st.i →
        st2.points[t]? = st.points[t]? ∧
        lane_x4 S st2.points4 t = lane_x4 S st.points4 t ∧
        lane_y4 S st2.points4 t = lane_y4 S st.points4 t) ∧
      st2.second = r.second := by
  have hpi : st.i < st.points.length := by omega
  have hgi : st.i / S < st.points4.length := (Nat.div_lt_iff_lt_mul hS).mpr hroom
  have hg : st.points4[st.j]? = some st.points4[st.i / S] := by
    rw [hj]
    exact List.getElem?_eq_getElem hgi
  obtain ⟨hgx, hgy⟩ := hshape _ (List.getElem_mem hgi)
  have hmod : st.i % S < S := Nat.mod_lt _ hS
  have hbody := read_body_eq stof S { st with first := r.first, infile := is1 }
    r.x r.y is2 r.second st.points[st.i] st.points4[st.i / S]
    hx hg2 hy (List.getElem?_eq_getElem hpi) hg
    (by simp only [hk, hgx]; exact hmod) (by simp only [hk, hgy]; exact hmod)
  have hstep := lane_counters_step S st.i hS
  have hcnt : (if st.i % S + 1 = S then st.i / S + 1 else st.i / S) = (st.i + 1) / S ∧
      (if st.i % S + 1 = S then 0 else st.i % S + 1) = (st.i + 1) % S := by
    by_cases h : st.i % S + 1 = S
    · rw [if_pos h] at hstep
      obtain ⟨h1, h2⟩ := Prod.mk.inj hstep
      simp only [if_pos h]
      exact ⟨h1, h2⟩
    · rw [if_neg h] at hstep
      obtain ⟨h1, h2⟩ := Prod.mk.inj hstep
      simp only [if_neg h]
      exact ⟨h1, h2⟩
  obtain ⟨st2, hb, h2s, h2in, h2i, h2j, h2k, h2p, h2p4⟩ : ∃ st2 : ReadState,
      read_body stof S { st with first := r.first, infile := is1 } = Except.ok st2 ∧
      st2.second = r.second ∧ st2.infile = is2 ∧ st2.i = st.i + 1 ∧
      st2.j = (st.i + 1) / S ∧ st2.k = (st.i + 1) % S ∧
      st2.points = st.points.set st.i
        { st.points[st.i] with x := r.x, y := r.y } ∧
      st2.points4 = st.points4.set (st.i / S)
        { st.points4[st.i / S] with
          x := st.points4[st.i / S].x.set (st.i % S) r.x,
          y := st.points4[st.i / S].y.set (st.i % S) r.y } :=
    ⟨_, hbody, rfl, rfl, rfl, by simp only [hk, hj]; exact hcnt.1,
      by simp only [hk]; exact hcnt.2, rfl, by simp only [hj, hk]⟩
  have hlane := store_lane S st.points4 st.i st.points4[st.i / S]
    (List.getElem?_eq_getElem hgi) (by rw [hgx]; exact hmod) (by rw [hgy]; exact hmod)
    r.x r.y
  refine ⟨st2, ?_, h2in, h2i, by rw [h2j, h2i], by rw [h2k, h2i], ?_, ?_, ?_, ?_, ?_, ?_, ?_,
    h2s⟩
  · conv_lhs => unfold read_loop
    simp only [hg1]
    rw [if_neg (by simp [hf1]), if_neg (Nat.ne_of_lt hi), hb]
  · rw [h2p, List.length_set]
    exact hlen
  · rw [h2p4, List.length_set]
  · rw [h2p4]
    exact shaped4_set S _ _ _ hshape (by simp [hgx, hgy])
  · exact ⟨st.points[st.i], List.getElem?_eq_getElem hpi, by
      rw [h2p, List.getElem?_set_self hpi]⟩
  · rw [h2p4, (hlane st.i).1, if_pos rfl]
  · rw [h2p4, (hlane st.i).2, if_pos rfl]
  · intro t ht
    refine ⟨?_, ?_, ?_⟩
    · rw [h2p, List.getElem?_set_ne (Ne.symm ht)]
    · rw [h2p4, (hlane t).1, if_neg ht]
    · rw [h2p4, (hlane t).2, if_neg ht]

/-- Once `eofbit` is set the loop condition fails and the loop ends. -/
theorem read_loop_eof (stof : List Char → Option ℚ) (S NP : Nat) :
    ∀ (fuel : Nat) (st : ReadState), st.infile.eof = true →
      ∃ st1, read_loop stof S NP fuel st = Except.ok st1 ∧ st1.i = st.i ∧ st1.j = st.j ∧
        st1.k = st.k ∧ st1.points = st.points ∧ st1.points4 = st.points4
  | 0, st, _ => ⟨st, rfl, rfl, rfl, rfl, rfl, rfl⟩
  | fuel + 1, st, h => by
    have hg : getline st.infile st.first ',' = ({ st.infile with fail := true }, st.first) := by
      simp [getline, h]
    refine ⟨{ st with infile := { st.infile with fail := true } }, ?_, rfl, rfl, rfl, rfl, rfl⟩
    unfold read_loop
    simp [hg]

theorem take_until_none (delim : Char) :
    ∀ s : List Char, delim ∉ s → take_until delim s = (s, none)
  | [], _ => by simp [take_until]
  | c :: s, h => by
    have hc : c ≠ delim := by
      intro hcd
      exact h (by simp [hcd])
    have hs : delim ∉ s := by
      intro hmem
      exact h (List.mem_cons_of_mem _ hmem)
    simp [take_until, hc, take_until_none delim s hs]

theorem getline_last (delim : Char) (s str : List Char) (h : delim ∉ s) :
    getline ⟨s, false, false⟩ str delim = (⟨[], true, s.isEmpty⟩, s) := by
  simp [getline, take_until_none delim s h]

theorem render_file_cons (r : Record) (rest : List Record) (terminated : Bool) :
    render_file (r :: rest) terminated
      = r.first ++ ',' :: (if rest.isEmpty && !terminated then r.second
          else r.second ++ '\n' :: render_file rest terminated) := by
  rw [render_file]
  split_ifs <;> simp [render]

/-- The reading loop on the text of well-formed records. -/
theorem read_loop_spec (stof : List Char → Option ℚ) (S NP : Nat) (hS : 0 < S)
    (terminated : Bool) :
    ∀ (recs : List Record) (fuel : Nat) (st : ReadState),
      (∀ r ∈ recs, WellFormed stof r) →
      st.infile = ⟨render_file recs terminated, false, false⟩ →
      st.j = st.i / S → st.k = st.i % S → st.i ≤ NP → NP - st.i < fuel →
      st.points.length = NP → Shaped4 S st.points4 →
      min (st.i + recs.length) NP ≤ st.points4.length * S →
      ∃ st1, read_loop stof S NP fuel st = Except.ok st1 ∧
        st1.i = min (st.i + recs.length) NP ∧ st1.j = st1.i / S ∧ st1.k = st1.i % S ∧
        st1.points.length = NP ∧ st1.points4.length = st.points4.length ∧
        Shaped4 S st1.points4 ∧
        (∀ (t : Nat) (r : Record), recs[t]? = some r → st.i + t < st1.i →
          (∃ p, st.points[st.i + t]? = some p ∧
            st1.points[st.i + t]? = some { p with x := r.x, y := r.y }) ∧
          lane_x4 S st1.points4 (st.i + t) = some r.x ∧
          lane_y4 S st1.points4 (st.i + t) = some r.y) ∧
        (∀ t : Nat, t < st.i ∨ st1.i ≤ t →
          st1.points[t]? = st.points[t]? ∧
          lane_x4 S st1.points4 t = lane_x4 S st.points4 t ∧
          lane_y4 S st1.points4 t = lane_y4 S st.points4 t)
  | _, 0, st, _, _, _, _, _, hfuel, _, _, _ => by omega
  | [], fuel + 1, st, _, hin, hj, hk, hle, _, hlen, hshape, _ => by
    refine ⟨{ st with infile := ⟨[], true, true⟩, first := [] }, ?_, ?_, hj, hk, hlen, rfl,
      hshape, ?_, ?_⟩
    · unfold read_loop
      rw [hin]
      simp [render_file, getline_empty]
    · simp [Nat.min_eq_left hle]
    · intro t r hr
      simp at hr
    · intro t _
      exact ⟨rfl, rfl, rfl⟩
  | r :: rest, fuel + 1, st, hwf, hin, hj, hk, hle, hfuel, hlen, hshape, hmem => by
    obtain ⟨hc1, hc2, hx, hy⟩ := hwf r (List.mem_cons_self _ _)
    have hlen1 : (r :: rest).length = rest.length + 1 := rfl
    rw [hlen1] at hmem
    have hget : getline st.infile st.first ','
        = (⟨if rest.isEmpty && !terminated then r.second
            else r.second ++ '\n' :: render_file rest terminated, false, false⟩, r.first) := by
      rw [hin, render_file_cons]
      exact getline_field ',' r.first _ st.first hc1
    by_cases hbreak : st.i = NP
    · refine ⟨{ st with first := r.first,
                        infile := ⟨if rest.isEmpty && !terminated then r.second
                          else r.second ++ '\n' :: render_file rest terminated, false, false⟩ },
        ?_, ?_, hj, hk, hlen, rfl, hshape, ?_, ?_⟩
      · unfold read_loop
        simp [hget, hbreak]
      · simp only [hbreak, hlen1]
        omega
      · intro t r1 _ hlt
        simp only [hbreak] at hlt
        omega
      · intro t _
        exact ⟨rfl, rfl, rfl⟩
    · have hi : st.i < NP := lt_of_le_of_ne hle hbreak
      have hroom : st.i < st.points4.length * S := by
        have hmin : st.i + 1 ≤ min (st.i + (rest.length + 1)) NP := by
          apply Nat.le_min.mpr
          omega
        omega
      -- the pass over `r`, then the rest of the loop
      have hrest : ∃ (is2 : IStream),
          getline ⟨if rest.isEmpty && !terminated then r.second
              else r.second ++ '\n' :: render_file rest terminated, false, false⟩
            st.second '\n' = (is2, r.second) ∧
          ((rest = [] ∧ is2.eof = true) ∨
            is2 = ⟨render_file rest terminated, false, false⟩) := by
        by_cases hlast : (rest.isEmpty && !terminated) = true
        · rw [if_pos hlast]
          refine ⟨_, getline_last '\n' r.second st.second hc2, Or.inl ⟨?_, rfl⟩⟩
          simp only [Bool.and_eq_true, List.isEmpty_iff] at hlast
          exact hlast.1
        · rw [if_neg hlast]
          exact ⟨_, getline_field '\n' r.second _ st.second hc2, Or.inr rfl⟩
      obtain ⟨is2, hg2, his2⟩ := hrest
      obtain ⟨st2, hrun2, h2in, h2i, h2j, h2k, h2len, h2len4, h2shape, h2p, h2x, h2y, h2o, _⟩ :=
        read_pass stof S NP hS fuel st r _ is2 hget rfl hg2 hx hy hj hk hi hlen hshape hroom
      have hfin : ∃ st1, read_loop stof S NP fuel st2 = Except.ok st1 ∧
          st1.i = min (st2.i + rest.length) NP ∧ st1.j = st1.i / S ∧ st1.k = st1.i % S ∧
          st1.points.length = NP ∧ st1.points4.length = st2.points4.length ∧
          Shaped4 S st1.points4 ∧
          (∀ (t : Nat) (r1 : Record), rest[t]? = some r1 → st2.i + t < st1.i →
            (∃ p, st2.points[st2.i + t]? = some p ∧
              st1.points[st2.i + t]? = some { p with x := r1.x, y := r1.y }) ∧
            lane_x4 S st1.points4 (st2.i + t) = some r1.x ∧
            lane_y4 S st1.points4 (st2.i + t) = some r1.y) ∧
          (∀ t : Nat, t < st2.i ∨ st1.i ≤ t →
            st1.points[t]? = st2.points[t]? ∧
            lane_x4 S st1.points4 t = lane_x4 S st2.points4 t ∧
            lane_y4 S st1.points4 t = lane_y4 S st2.points4 t) := by
        rcases his2 with ⟨hnil, heof⟩ | his2
        · obtain ⟨st1, hrun1, e1, e2, e3, e4, e5⟩ :=
            read_loop_eof stof S NP fuel st2 (by rw [h2in]; exact heof)
          subst hnil
          refine ⟨st1, hrun1, ?_, by rw [e2, e1, h2j], by rw [e3, e1, h2k], by rw [e4, h2len],
            by rw [e5], by rw [e5]; exact h2shape, ?_, ?_⟩
          · rw [e1, h2i]
            simp only [List.length_nil, Nat.add_zero]
            omega
          · intro t r1 hr1
            simp at hr1
          · intro t _
            rw [e4, e5]
            exact ⟨rfl, rfl, rfl⟩
        · exact read_loop_spec stof S NP hS terminated rest fuel st2
            (fun r1 hr1 => hwf r1 (List.mem_cons_of_mem _ hr1)) (by rw [h2in, his2])
            h2j h2k (by rw [h2i]; omega) (by rw [h2i]; omega) h2len h2shape
            (by
              rw [h2len4, h2i, show st.i + 1 + rest.length = st.i + (rest.length + 1) by omega]
              exact hmem)
      obtain ⟨st1, hrun, hi1, hj1, hk1, hlen1', hlen4, hshape1, hA, hB⟩ := hfin
      rw [h2i] at hi1 hA hB
      have hi1' : st1.i = min (st.i + (r :: rest).length) NP := by
        rw [hi1, hlen1]
        congr 1
        omega
      have hlt1 : st.i < st1.i := by
        rw [hi1]
        apply Nat.lt_of_succ_le
        apply Nat.le_min.mpr
        omega
      refine ⟨st1, by rw [hrun2]; exact hrun, hi1', hj1, hk1, hlen1', by rw [hlen4, h2len4],
        hshape1, ?_, ?_⟩
      · intro t r1 hr1 hlt
        cases t with
        | zero =>
          simp at hr1
          subst hr1
          obtain ⟨hB1, hB2, hB3⟩ := hB st.i (Or.inl (Nat.lt_succ_self _))
          obtain ⟨p, hp0, hp1⟩ := h2p
          refine ⟨⟨p, hp0, ?_⟩, ?_, ?_⟩
          · rw [Nat.add_zero, hB1, hp1]
          · rw [Nat.add_zero, hB2, h2x]
          · rw [Nat.add_zero, hB3, h2y]
        | succ t =>
          simp at hr1
          have hidx : st.i + (t + 1) = st.i + 1 + t := by omega
          rw [hidx] at hlt ⊢
          obtain ⟨⟨p, hp1, hp2⟩, hx1, hy1⟩ := hA t r1 hr1 hlt
          refine ⟨⟨p, ?_, hp2⟩, hx1, hy1⟩
          rw [← hp1, (h2o (st.i + 1 + t) (by omega)).1]
      · intro t ht
        have hne : t ≠ st.i := by omega
        obtain ⟨hB1, hB2, hB3⟩ := hB t (by omega)
        obtain ⟨o1, o2, o3⟩ := h2o t hne
        exact ⟨by rw [hB1, o1], by rw [hB2, o2], by rw [hB3, o3]⟩

theorem read_body_counters (stof : List Char → Option ℚ) (S : Nat) (hS : 0 < S)
    (st0 st1 : ReadState) (hj : st0.j = st0.i / S) (hk : st0.k = st0.i % S)
    (h : read_body stof S st0 = Except.ok st1) :
    st1.i = st0.i + 1 ∧ st1.j = st1.i / S ∧ st1.k = st1.i % S := by
  have hstep := lane_counters_step S st0.i hS
  unfold read_body at h
  simp only [bind, Except.bind] at h
  repeat' split at h
  all_goals cases h
  all_goals
    by_cases hc : st0.i % S + 1 = S
    · rw [if_pos hc] at hstep
      obtain ⟨h1, h2⟩ := Prod.mk.inj hstep
      first
        | (exfalso; omega)
        | simp [hk, hj, hc, h1, h2]
    · rw [if_neg hc] at hstep
      obtain ⟨h1, h2⟩ := Prod.mk.inj hstep
      first
        | (exfalso; omega)
        | simp [hk, hj, hc, h1, h2]

/-- C7: on the text of `n` well-formed coordinate pairs, one per line, the
last line with or without its newline (with a positive `SIMD_SIZE` and a
packed block that has a lane for every point to store), the reading loop ends
normally having stored exactly `min(n, NUM_POINTS)` points:
the counter `i` ends at that number with `j = i / SIMD_SIZE`, `k = i % SIMD_SIZE`;
for every `i` below it `points[i]` holds the `i`-th pair and
`points4[i / SIMD_SIZE]` holds it in lane `i % SIMD_SIZE` of `x` and `y`; the
slots from that number on are as `memset` left them; and every pass of the
loop body keeps `j = i / SIMD_SIZE`, `k = i % SIMD_SIZE` while advancing `i`. -/
theorem read_points_spec (cfg : Config) (stof : List Char → Option ℚ) (recs : List Record)
    (terminated : Bool)
    (hwf : ∀ r ∈ recs, WellFormed stof r) (hS : 0 < cfg.SIMD_SIZE)
    (hmem : min recs.length cfg.NUM_POINTS
      ≤ cfg.NUM_POINTS / cfg.SIMD_SIZE * cfg.SIMD_SIZE) :
    ∃ st, read_points cfg stof (render_file recs terminated) = Except.ok st ∧
      st.i = min recs.length cfg.NUM_POINTS ∧
      st.j = st.i / cfg.SIMD_SIZE ∧ st.k = st.i % cfg.SIMD_SIZE ∧
      (∀ (i : Nat) (r : Record), recs[i]? = some r → i < st.i →
        st.points[i]? = some ⟨r.x, r.y, 0⟩ ∧
        ∃ g, st.points4[i / cfg.SIMD_SIZE]? = some g ∧
          g.x[i % cfg.SIMD_SIZE]? = some r.x ∧ g.y[i % cfg.SIMD_SIZE]? = some r.y) ∧
      (∀ i : Nat, st.i ≤ i →
        st.points[i]? = (zero_points cfg.NUM_POINTS)[i]? ∧
        lane_x4 cfg.SIMD_SIZE st.points4 i
          = lane_x4 cfg.SIMD_SIZE
              (zero_points4 cfg.SIMD_SIZE (cfg.NUM_POINTS / cfg.SIMD_SIZE)) i ∧
        lane_y4 cfg.SIMD_SIZE st.points4 i
          = lane_y4 cfg.SIMD_SIZE
              (zero_points4 cfg.SIMD_SIZE (cfg.NUM_POINTS / cfg.SIMD_SIZE)) i) ∧
      (∀ st0 st1 : ReadState, st0.j = st0.i / cfg.SIMD_SIZE → st0.k = st0.i % cfg.SIMD_SIZE →
        read_body stof cfg.SIMD_SIZE st0 = Except.ok st1 →
        st1.i = st0.i + 1 ∧ st1.j = st1.i / cfg.SIMD_SIZE ∧ st1.k = st1.i % cfg.SIMD_SIZE) := by
  have hshape : Shaped4 cfg.SIMD_SIZE
      (zero_points4 cfg.SIMD_SIZE (cfg.NUM_POINTS / cfg.SIMD_SIZE)) := by
    intro g hg
    rw [zero_points4, List.mem_replicate] at hg
    rw [hg.2]
    simp
  obtain ⟨st, hrun, hi, hj, hk, _, _, _, hA, hB⟩ :=
    read_loop_spec stof cfg.SIMD_SIZE cfg.NUM_POINTS hS terminated recs (cfg.NUM_POINTS + 1)
      { infile := ⟨render_file recs terminated, false, false⟩, first := [], second := [],
        i := 0, j := 0, k := 0, points := zero_points cfg.NUM_POINTS,
        points4 := zero_points4 cfg.SIMD_SIZE (cfg.NUM_POINTS / cfg.SIMD_SIZE) }
      hwf rfl (by simp) (by simp) (Nat.zero_le _) (by simp) (by simp [zero_points]) hshape
      (by simpa [zero_points4] using hmem)
  simp only [Nat.zero_add] at hi hA hB
  refine ⟨st, hrun, hi, hj, hk, ?_, ?_, ?_⟩
  · intro i r hr hlt
    obtain ⟨⟨p, hp0, hp1⟩, hx, hy⟩ := hA i r hr hlt
    have hp : p = ⟨0, 0, 0⟩ := by
      have hi0 := lt_length_of_getElem? _ _ _ hp0
      rw [List.getElem?_eq_getElem hi0] at hp0
      simp only [zero_points, List.getElem_replicate] at hp0
      exact (Option.some.inj hp0).symm
    refine ⟨by rw [hp1, hp], ?_⟩
    unfold lane_x4 at hx
    unfold lane_y4 at hy
    cases hg : st.points4[i / cfg.SIMD_SIZE]? with
    | none => simp [hg] at hx
    | some g =>
      rw [hg] at hx hy
      exact ⟨g, rfl, hx, hy⟩
  · intro i hle
    exact hB i (Or.inr hle)
  · intro st0 st1 h0j h0k hbody
    exact read_body_counters stof cfg.SIMD_SIZE hS st0 st1 h0j h0k hbody

theorem read_points_spec_witness :
    ((∀ r ∈ ([⟨['1'], ['2'], 1, 2⟩, ⟨['3'], ['4'], 3, 4⟩, ⟨['5'], ['6'], 5, 6⟩] : List Record),
        WellFormed stof_digits r) ∧
      0 < (⟨2, 2, 2, 2, 2, 1⟩ : Config).SIMD_SIZE ∧
      min ([⟨['1'], ['2'], 1, 2⟩, ⟨['3'], ['4'], 3, 4⟩, ⟨['5'], ['6'], 5, 6⟩] : List Record).length
          (⟨2, 2, 2, 2, 2, 1⟩ : Config).NUM_POINTS
        ≤ (⟨2, 2, 2, 2, 2, 1⟩ : Config).NUM_POINTS / (⟨2, 2, 2, 2, 2, 1⟩ : Config).SIMD_SIZE
            * (⟨2, 2, 2, 2, 2, 1⟩ : Config).SIMD_SIZE) ∧
    ∃ st, read_points ⟨2, 2, 2, 2, 2, 1⟩ stof_digits
        (render_file [⟨['1'], ['2'], 1, 2⟩, ⟨['3'], ['4'], 3, 4⟩, ⟨['5'], ['6'], 5, 6⟩] false)
        = Except.ok st ∧
      st.i = 2 ∧ st.points = [⟨1, 2, 0⟩, ⟨3, 4, 0⟩] ∧
      st.points4 = [⟨[1, 3], [2, 4], [0, 0]⟩] := by
  have hwf : ∀ r ∈ ([⟨['1'], ['2'], 1, 2⟩, ⟨['3'], ['4'], 3, 4⟩, ⟨['5'], ['6'], 5, 6⟩] :
      List Record), WellFormed stof_digits r := by
    intro r hr
    simp only [List.mem_cons, List.mem_singleton, List.not_mem_nil, or_false] at hr
    rcases hr with rfl | rfl | rfl <;> (unfold WellFormed; decide!)
  refine ⟨⟨hwf, by decide, by decide⟩, ?_⟩
  obtain ⟨st, hst, hi, _⟩ := read_points_spec ⟨2, 2, 2, 2, 2, 1⟩ stof_digits _ false hwf
    (by decide) (by decide)
  refine ⟨st, hst, by simpa using hi, ?_⟩
  have heval : read_points ⟨2, 2, 2, 2, 2, 1⟩ stof_digits
      (render_file [⟨['1'], ['2'], 1, 2⟩, ⟨['3'], ['4'], 3, 4⟩, ⟨['5'], ['6'], 5, 6⟩] false)
      = Except.ok ⟨⟨['6'], false, false⟩, ['5'], ['4'], 2, 1, 0,
          [⟨1, 2, 0⟩, ⟨3, 4, 0⟩], [⟨[1, 3], [2, 4], [0, 0]⟩]⟩ := by
    decide!
  rw [heval] at hst
  cases hst
  exact ⟨rfl, rfl⟩

/-! ## Index arithmetic of the kernels -/

/-- C8: for `SIMD_SIZE` a power of two and every record index `c`, the pair
`(c / SIMD_SIZE, c & (SIMD_SIZE - 1))` has lane `c % SIMD_SIZE`, a lane below
`SIMD_SIZE`, and `group * SIMD_SIZE + lane = c`; conversely every group `g` and
lane `l < SIMD_SIZE` are recovered from the index `g * SIMD_SIZE + l`. -/
theorem lane_of_bijective (S e : Nat) (hS : S = 2 ^ e) :
    (∀ c : Nat, (lane_of S c).2 = c % S ∧ (lane_of S c).2 < S ∧
      (lane_of S c).1 * S + (lane_of S c).2 = c) ∧
    (∀ g l : Nat, l < S → lane_of S (g * S + l) = (g, l)) := by
  have hpos : 0 < S := by
    rw [hS]
    exact Nat.pow_pos (by decide)
  have hand : ∀ c : Nat, c &&& (S - 1) = c % S := by
    intro c
    rw [hS]
    exact Nat.and_pow_two_sub_one_eq_mod c e
  constructor
  · intro c
    simp only [lane_of, hand]
    refine ⟨trivial, Nat.mod_lt c hpos, ?_⟩
    rw [Nat.mul_comm]
    exact Nat.div_add_mod c S
  · intro g l hl
    simp only [lane_of, hand]
    have h1 : (g * S + l) / S = g := by
      rw [Nat.mul_comm, Nat.mul_add_div hpos, Nat.div_eq_of_lt hl, Nat.add_zero]
    have h2 : (g * S + l) % S = l := by
      rw [Nat.mul_comm, Nat.mul_add_mod, Nat.mod_eq_of_lt hl]
    rw [h1, h2]

theorem lane_of_bijective_witness :
    8 = 2 ^ 3 ∧
    ((∀ c : Nat, (lane_of 8 c).2 = c % 8 ∧ (lane_of 8 c).2 < 8 ∧
      (lane_of 8 c).1 * 8 + (lane_of 8 c).2 = c) ∧
    (∀ g l : Nat, l < 8 → lane_of 8 (g * 8 + l) = (g, l))) :=
  ⟨by decide, lane_of_bijective 8 3 (by decide)⟩

/-- C10: when `NUM_POINTS > 0`, `SIMD_SIZE` divides `POINTS_PER_THREAD` and
`POINTS_PER_THREAD` divides `NUM_POINTS`, every point group below
`NUM_POINTS / SIMD_SIZE` is loaded by exactly one pair (thread `g`, pass `i`)
with `g < total_threads` and `i < POINTS_PER_THREAD / SIMD_SIZE`, and no
thread loads a group at or beyond `NUM_POINTS / SIMD_SIZE`. -/
theorem thread_groups_partition (NP PPT S : Nat) (hNP : 0 < NP) (h1 : S ∣ PPT)
    (h2 : PPT ∣ NP) :
    (∀ t : Nat, t < NP / S →
      ∃ g i : Nat, (g < total_threads NP PPT ∧ i < PPT / S ∧ thread_group PPT S g i = t) ∧
        ∀ g1 i1 : Nat, g1 < total_threads NP PPT → i1 < PPT / S →
          thread_group PPT S g1 i1 = t → g1 = g ∧ i1 = i) ∧
    (∀ g i : Nat, g < total_threads NP PPT → i < PPT / S →
      thread_group PPT S g i < NP / S) := by
  obtain ⟨a, rfl⟩ := h1
  obtain ⟨b, rfl⟩ := h2
  have hSa : 0 < S * a := Nat.pos_of_ne_zero (by
    intro h
    rw [h, Nat.zero_mul] at hNP
    exact Nat.lt_irrefl 0 hNP)
  have hS : 0 < S := Nat.pos_of_mul_pos_right hSa
  have ha : 0 < a := Nat.pos_of_mul_pos_left hSa
  have hb : 0 < b := Nat.pos_of_mul_pos_left hNP
  have htot : total_threads (S * a * b) (S * a) = b := by
    unfold total_threads
    obtain ⟨b1, rfl⟩ : ∃ b1, b = b1 + 1 := ⟨b - 1, by omega⟩
    have h : S * a * (b1 + 1) - 1 = S * a * b1 + (S * a - 1) := by
      rw [Nat.mul_add, Nat.mul_one]
      omega
    rw [h, Nat.mul_add_div hSa, Nat.div_eq_of_lt (by omega), Nat.add_zero]
  have hgrp : ∀ g i : Nat, thread_group (S * a) S g i = g * a + i := by
    intro g i
    unfold thread_group
    rw [show g * (S * a) = S * (g * a) by ring, Nat.mul_div_cancel_left _ hS]
  have hper : S * a / S = a := Nat.mul_div_cancel_left a hS
  have hall : S * a * b / S = a * b := by
    rw [Nat.mul_assoc, Nat.mul_div_cancel_left _ hS]
  rw [htot, hper, hall]
  constructor
  · intro t ht
    refine ⟨t / a, t % a, ⟨?_, Nat.mod_lt t ha, ?_⟩, ?_⟩
    · exact (Nat.div_lt_iff_lt_mul ha).mpr (by rw [Nat.mul_comm]; exact ht)
    · rw [hgrp, Nat.mul_comm]
      exact Nat.div_add_mod t a
    · intro g1 i1 _ hi1 hg1
      rw [hgrp] at hg1
      subst hg1
      constructor
      · rw [Nat.mul_comm, Nat.mul_add_div ha, Nat.div_eq_of_lt hi1, Nat.add_zero]
      · rw [Nat.mul_comm, Nat.mul_add_mod, Nat.mod_eq_of_lt hi1]
  · intro g i hg hi
    rw [hgrp]
    calc g * a + i < g * a + a := by omega
      _ = (g + 1) * a := by ring
      _ ≤ b * a := Nat.mul_le_mul_right a hg
      _ = a * b := Nat.mul_comm b a

theorem thread_groups_partition_witness :
    (0 < 32 ∧ 4 ∣ 8 ∧ 8 ∣ 32) ∧
    ((∀ t : Nat, t < 32 / 4 →
      ∃ g i : Nat, (g < total_threads 32 8 ∧ i < 8 / 4 ∧ thread_group 8 4 g i = t) ∧
        ∀ g1 i1 : Nat, g1 < total_threads 32 8 → i1 < 8 / 4 →
          thread_group 8 4 g1 i1 = t → g1 = g ∧ i1 = i) ∧
    (∀ g i : Nat, g < total_threads 32 8 → i < 8 / 4 →
      thread_group 8 4 g i < 32 / 4)) :=
  ⟨by decide, thread_groups_partition 32 8 4 (by decide) (by decide) (by decide)⟩

/-! ## Centroid initialisation -/

theorem cshaped_set (S : Nat) (c4 : List Centroid4) (i : Nat) (G : Centroid4)
    (h : CShaped S c4) (hG : G.x.length = S ∧ G.y.length = S ∧ G.num_points.length = S) :
    CShaped S (c4.set i G) := by
  intro G1 hG1
  rcases List.mem_or_eq_of_mem_set hG1 with h1 | h1
  · exact h G1 h1
  · rw [h1]
    exact hG

/-- Effect of the three stores for one lane. -/
theorem copy_lane_spec (S : Nat) (points4 : List Point4) (c4 : List Centroid4) (i j : Nat)
    (x y : ℚ) (hx : (points4[i]?).bind (fun g => g.x[j]?) = some x)
    (hy : (points4[i]?).bind (fun g => g.y[j]?) = some y)
    (hi : i < c4.length) (hj : j < S) (hshape : CShaped S c4) :
    ∃ c, copy_lane points4 i j c4 = Except.ok c ∧ c.length = c4.length ∧ CShaped S c ∧
      ∀ g l : Nat,
        cell_x c g l = (if g = i ∧ l = j then some x else cell_x c4 g l) ∧
        cell_y c g l = (if g = i ∧ l = j then some y else cell_y c4 g l) ∧
        cell_n c g l = (if g = i ∧ l = j then some 0 else cell_n c4 g l) := by
  cases hsrc : points4[i]? with
  | none => simp [hsrc] at hx
  | some src =>
    rw [hsrc] at hx hy
    simp only [Option.some_bind] at hx hy
    obtain ⟨hlx, hly, hln⟩ := hshape _ (List.getElem_mem hi)
    have hdst : c4[i]? = some c4[i] := List.getElem?_eq_getElem hi
    refine ⟨c4.set i
      (⟨c4[i].x.set j x, c4[i].y.set j y, c4[i].num_points.set j 0⟩ : Centroid4),
      ?_, ?_, ?_, ?_⟩
    · unfold copy_lane
      simp [load, store, hsrc, hdst, hx, hy, hi, hlx, hly, hln, hj, bind, Except.bind]
    · rw [List.length_set]
    · exact cshaped_set S c4 i _ hshape (by simp [hlx, hly, hln])
    · intro g l
      by_cases hg : g = i
      · subst hg
        by_cases hl : l = j
        · subst hl
          simp [cell_x, cell_y, cell_n, List.getElem?_set_self hi, hlx, hly, hln, hj]
        · simp [cell_x, cell_y, cell_n, List.getElem?_set_self hi, hl,
            List.getElem?_set_ne (Ne.symm hl), hdst]
      · simp [cell_x, cell_y, cell_n, hg, List.getElem?_set_ne (Ne.symm hg)]

/-- Effect of the lane loop on group `i`. -/
theorem copy_lanes_spec (S : Nat) (points4 : List Point4) (i : Nat) :
    ∀ (n : Nat) (c4 : List Centroid4), n ≤ S → (0 < n → i < c4.length) → CShaped S c4 →
      (∀ l : Nat, l < n → ∃ x y, (points4[i]?).bind (fun g => g.x[l]?) = some x ∧
        (points4[i]?).bind (fun g => g.y[l]?) = some y) →
      ∃ c, copy_lanes points4 i n c4 = Except.ok c ∧ c.length = c4.length ∧ CShaped S c ∧
        ∀ g l : Nat,
          cell_x c g l = (if g = i ∧ l < n
            then (points4[i]?).bind (fun g => g.x[l]?) else cell_x c4 g l) ∧
          cell_y c g l = (if g = i ∧ l < n
            then (points4[i]?).bind (fun g => g.y[l]?) else cell_y c4 g l) ∧
          cell_n c g l = (if g = i ∧ l < n then some 0 else cell_n c4 g l)
  | 0, c4, _, _, hshape, _ => by
    refine ⟨c4, rfl, rfl, hshape, ?_⟩
    intro g l
    simp
  | n + 1, c4, hn, hi, hshape, hsrc => by
    obtain ⟨c1, hrun1, hlen1, hshape1, hcell1⟩ := copy_lanes_spec S points4 i n c4
      (by omega) (fun _ => hi (Nat.succ_pos n)) hshape
      (fun l hl => hsrc l (Nat.lt_succ_of_lt hl))
    obtain ⟨x, y, hx, hy⟩ := hsrc n (Nat.lt_succ_self n)
    obtain ⟨c, hrun, hlen, hshape2, hcell⟩ := copy_lane_spec S points4 c1 i n x y hx hy
      (by rw [hlen1]; exact hi (Nat.succ_pos n)) (by omega) hshape1
    refine ⟨c, ?_, by rw [hlen, hlen1], hshape2, ?_⟩
    · simp only [copy_lanes, hrun1, bind, Except.bind]
      exact hrun
    · intro g l
      obtain ⟨h1, h2, h3⟩ := hcell g l
      obtain ⟨k1, k2, k3⟩ := hcell1 g l
      rw [h1, h2, h3, k1, k2, k3]
      by_cases hg : g = i
      · by_cases hl : l = n
        · subst hg
          subst hl
          simp [hx, hy]
        · by_cases hl2 : l < n
          · have hl3 : l < n + 1 := by omega
            simp [hg, hl, hl2, hl3]
          · have hl3 : ¬ l < n + 1 := by omega
            simp [hg, hl, hl2, hl3]
      · simp [hg]

/-- Effect of the full-group loop. -/
theorem copy_groups_spec (S : Nat) (points4 : List Point4) :
    ∀ (m : Nat) (c4 : List Centroid4), m ≤ c4.length → CShaped S c4 →
      (∀ g l : Nat, g < m → l < S → ∃ x y, (points4[g]?).bind (fun G => G.x[l]?) = some x ∧
        (points4[g]?).bind (fun G => G.y[l]?) = some y) →
      ∃ c, copy_groups S points4 m c4 = Except.ok c ∧ c.length = c4.length ∧ CShaped S c ∧
        ∀ g l : Nat,
          cell_x c g l = (if g < m ∧ l < S
            then (points4[g]?).bind (fun G => G.x[l]?) else cell_x c4 g l) ∧
          cell_y c g l = (if g < m ∧ l < S
            then (points4[g]?).bind (fun G => G.y[l]?) else cell_y c4 g l) ∧
          cell_n c g l = (if g < m ∧ l < S then some 0 else cell_n c4 g l)
  | 0, c4, _, hshape, _ => by
    refine ⟨c4, rfl, rfl, hshape, ?_⟩
    intro g l
    simp
  | m + 1, c4, hm, hshape, hsrc => by
    obtain ⟨c1, hrun1, hlen1, hshape1, hcell1⟩ := copy_groups_spec S points4 m c4
      (by omega) hshape (fun g l hg hl => hsrc g l (Nat.lt_succ_of_lt hg) hl)
    obtain ⟨c, hrun, hlen, hshape2, hcell⟩ := copy_lanes_spec S points4 m S c1
      (Nat.le_refl S) (fun _ => by rw [hlen1]; omega) hshape1
      (fun l hl => hsrc m l (Nat.lt_succ_self m) hl)
    refine ⟨c, ?_, by rw [hlen, hlen1], hshape2, ?_⟩
    · simp only [copy_groups, hrun1, bind, Except.bind]
      exact hrun
    · intro g l
      obtain ⟨h1, h2, h3⟩ := hcell g l
      obtain ⟨k1, k2, k3⟩ := hcell1 g l
      rw [h1, h2, h3, k1, k2, k3]
      by_cases hg : g = m
      · subst hg
        by_cases hl : l < S
        · simp [hl]
        · simp [hl]
      · by_cases hg2 : g < m
        · have hg3 : g < m + 1 := by omega
          simp [hg, hg2, hg3]
        · have hg3 : ¬ g < m + 1 := by omega
          simp [hg, hg2, hg3]

/-- Effect of the scalar initialisation loop. -/
theorem init_centroids_spec (points : List Point) :
    ∀ (n : Nat) (cs0 : List Centroid), n ≤ cs0.length → n ≤ points.length →
      ∃ cs, init_centroids points n cs0 = Except.ok cs ∧ cs.length = cs0.length ∧
        ∀ i : Nat, cs[i]? = (if i < n
          then (points[i]?).map (fun p => (⟨p.x, p.y, 0⟩ : Centroid)) else cs0[i]?)
  | 0, cs0, _, _ => by
    refine ⟨cs0, rfl, rfl, ?_⟩
    intro i
    simp
  | n + 1, cs0, h1, h2 => by
    obtain ⟨cs1, hrun1, hlen1, hcell1⟩ := init_centroids_spec points n cs0 (by omega) (by omega)
    have hn : n < points.length := by omega
    have hn1 : n < cs1.length := by omega
    refine ⟨cs1.set n ⟨points[n].x, points[n].y, 0⟩, ?_, ?_, ?_⟩
    · simp [init_centroids, hrun1, load, store, List.getElem?_eq_getElem hn, hn1, bind,
        Except.bind]
    · rw [List.length_set, hlen1]
    · intro i
      by_cases hi : i = n
      · subst hi
        simp [List.getElem?_set_self hn1, List.getElem?_eq_getElem hn]
      · rw [List.getElem?_set_ne (Ne.symm hi), hcell1 i]
        by_cases hi2 : i < n
        · have hi3 : i < n + 1 := by omega
          simp [hi2, hi3]
        · have hi3 : ¬ i < n + 1 := by omega
          simp [hi2, hi3]

theorem cell_zero (S n g l : Nat) (hg : g < n) (hl : l < S) :
    cell_x (zero_centroids4 S n) g l = some 0 ∧ cell_y (zero_centroids4 S n) g l = some 0 ∧
    cell_n (zero_centroids4 S n) g l = some 0 := by
  simp [cell_x, cell_y, cell_n, zero_centroids4, List.getElem?_replicate, hg, hl]

theorem copy_lanes_eq_fold (points4 : List Point4) (i : Nat) :
    ∀ (n : Nat) (c4 : List Centroid4),
      copy_lanes points4 i n c4
        = ((List.range n).map (fun j => (i, j))).foldlM
            (fun c v => copy_lane points4 v.1 v.2 c) c4
  | 0, c4 => by
    simp [copy_lanes]
    rfl
  | n + 1, c4 => by
    rw [List.range_succ, List.map_append, List.foldlM_append, ← copy_lanes_eq_fold points4 i n c4]
    simp [copy_lanes]

theorem copy_groups_eq_fold (S : Nat) (points4 : List Point4) :
    ∀ (m : Nat) (c4 : List Centroid4),
      copy_groups S points4 m c4
        = ((List.range m).flatMap (fun i => (List.range S).map (fun j => (i, j)))).foldlM
            (fun c v => copy_lane points4 v.1 v.2 c) c4
  | 0, c4 => by
    simp [copy_groups]
    rfl
  | m + 1, c4 => by
    rw [List.range_succ, List.flatMap_append, List.foldlM_append,
      ← copy_groups_eq_fold S points4 m c4]
    simp [copy_groups, copy_lanes_eq_fold]

/-- The packed initialisation performs the stores of `init_writes`, in order. -/
theorem init_centroids4_eq_fold (S NCA NCALLOC : Nat) (points4 : List Point4) :
    init_centroids4 S NCA NCALLOC points4
      = (init_writes S NCA).foldlM (fun c v => copy_lane points4 v.1 v.2 c)
          (zero_centroids4 S (NCALLOC / S)) := by
  simp [init_centroids4, init_writes, List.foldlM_append, copy_groups_eq_fold,
    copy_lanes_eq_fold]

/-- For `SIMD_SIZE` a power of two the two loops write the logical indices
`0 .. NUM_CENTROIDS_ACTUAL - 1`, each once, at group `i / SIMD_SIZE`, lane
`i % SIMD_SIZE`. -/
theorem init_writes_eq (S NCA e : Nat) (hS : S = 2 ^ e) :
    init_writes S NCA = (List.range NCA).map (fun i => (i / S, i % S)) := by
  have hpos : 0 < S := by
    rw [hS]
    exact Nat.pow_pos (by decide)
  have hand : NCA &&& (S - 1) = NCA % S := by
    rw [hS]
    exact Nat.and_pow_two_sub_one_eq_mod NCA e
  have hr : NCA % S < S := Nat.mod_lt NCA hpos
  have hblock : ∀ (q r : Nat), r ≤ S →
      (List.range r).map (fun j => (q, j))
        = (List.range' (q * S) r).map (fun i => (i / S, i % S)) := by
    intro q r hrS
    have h := visits_block S q r hrS
    have h2 := congrArg (List.map (fun v : Nat × Nat × Nat => v.2)) h
    simpa [List.map_map, Function.comp_def] using h2
  have hgroups : ∀ n a : Nat,
      (List.range' a n).flatMap (fun i => (List.range S).map (fun j => (i, j)))
        = (List.range' (a * S) (n * S)).map (fun i => (i / S, i % S)) := by
    intro n
    induction n with
    | zero => intro a; simp
    | succ n ih =>
      intro a
      rw [List.range'_succ, List.flatMap_cons, ih (a + 1), hblock a S (Nat.le_refl S),
        ← List.map_append]
      have h : (a + 1) * S = a * S + S := by ring
      rw [h, List.range'_append_1]
      congr 2
      ring
  unfold init_writes
  rw [hand, hblock (NCA / S) (NCA % S) (le_of_lt hr), List.range_eq_range', hgroups,
    ← List.map_append, Nat.zero_mul, List.range_eq_range']
  have happ := List.range'_append_1 0 (NCA / S * S) (NCA % S)
  rw [Nat.zero_add] at happ
  rw [happ]
  congr 2
  rw [Nat.add_comm, Nat.mul_comm]
  exact Nat.div_add_mod NCA S

/-- C9: for `SIMD_SIZE` a power of two, scalar and packed points holding the
same input in lane order with at least `NUM_CENTROIDS_ACTUAL` points, and
blocks with room for `NUM_CENTROIDS_ACTUAL` centroids, both initialisations
complete; every `i < NUM_CENTROIDS_ACTUAL` has `centroids[i] = (points[i].x,
points[i].y, 0)` and the packed centroid in group `i / SIMD_SIZE`, lane
`i % SIMD_SIZE`, has the same `x`, the same `y` and `num_points` 0; every
packed lane with logical index at or beyond `NUM_CENTROIDS_ACTUAL` is zero; the
packed initialisation is the sequence of stores `init_writes` of the
full-group loop and the remainder loop, which are those of the indices
`0 .. NUM_CENTROIDS_ACTUAL - 1`, each once. -/
theorem init_same_centroids (S NCA NCALLOC e : Nat) (hS : S = 2 ^ e)
    (points : List Point) (points4 : List Point4) (hpack : PacksPoints S points points4)
    (hpts : NCA ≤ points.length) (hroom : NCA ≤ NCALLOC / S * S)
    (centroids : List Centroid) (hlen : centroids.length = NCA) :
    ∃ cs c4, init_centroids points NCA centroids = Except.ok cs ∧
      init_centroids4 S NCA NCALLOC points4 = Except.ok c4 ∧
      (∀ i : Nat, i < NCA → ∃ p, points[i]? = some p ∧ cs[i]? = some ⟨p.x, p.y, 0⟩ ∧
        cell_x c4 (i / S) (i % S) = some p.x ∧ cell_y c4 (i / S) (i % S) = some p.y ∧
        cell_n c4 (i / S) (i % S) = some 0) ∧
      (∀ g l : Nat, g < NCALLOC / S → l < S → NCA ≤ g * S + l →
        cell_x c4 g l = some 0 ∧ cell_y c4 g l = some 0 ∧ cell_n c4 g l = some 0) ∧
      init_centroids4 S NCA NCALLOC points4
        = (init_writes S NCA).foldlM (fun c v => copy_lane points4 v.1 v.2 c)
            (zero_centroids4 S (NCALLOC / S)) ∧
      init_writes S NCA = (List.range NCA).map (fun i => (i / S, i % S)) := by
  have hpos : 0 < S := by
    rw [hS]
    exact Nat.pow_pos (by decide)
  have hand : NCA &&& (S - 1) = NCA % S := by
    rw [hS]
    exact Nat.and_pow_two_sub_one_eq_mod NCA e
  have hdm : S * (NCA / S) + NCA % S = NCA := Nat.div_add_mod NCA S
  have hr : NCA % S < S := Nat.mod_lt NCA hpos
  have hq : NCA / S ≤ NCALLOC / S := by
    apply (Nat.le_div_iff_mul_le hpos).mpr
    calc NCA / S * S ≤ NCA := Nat.div_mul_le_self NCA S
      _ ≤ NCALLOC / S * S := hroom
      _ ≤ NCALLOC := Nat.div_mul_le_self NCALLOC S
  -- the source lanes of every index below `NCA` exist
  have hsrc : ∀ g l : Nat, l < S → g * S + l < NCA →
      ∃ p, points[g * S + l]? = some p ∧
        (points4[g]?).bind (fun G => G.x[l]?) = some p.x ∧
        (points4[g]?).bind (fun G => G.y[l]?) = some p.y := by
    intro g l hl hlt
    have hi : g * S + l < points.length := by omega
    obtain ⟨hx, hy⟩ := hpack _ _ (List.getElem?_eq_getElem hi)
    have h1 : (g * S + l) / S = g := by
      rw [Nat.mul_comm, Nat.mul_add_div hpos, Nat.div_eq_of_lt hl, Nat.add_zero]
    have h2 : (g * S + l) % S = l := by
      rw [Nat.mul_comm, Nat.mul_add_mod, Nat.mod_eq_of_lt hl]
    simp only [lane_x4, lane_y4, h1, h2] at hx hy
    exact ⟨_, List.getElem?_eq_getElem hi, hx, hy⟩
  have hfull : ∀ g l : Nat, g < NCA / S → l < S → g * S + l < NCA := by
    intro g l hg hl
    calc g * S + l < g * S + S := by omega
      _ = (g + 1) * S := by ring
      _ ≤ NCA / S * S := Nat.mul_le_mul_right S hg
      _ ≤ NCA := Nat.div_mul_le_self NCA S
  have hrem : ∀ l : Nat, l < NCA % S → NCA / S * S + l < NCA := by
    intro l hl
    rw [Nat.mul_comm]
    omega
  have hzshape : CShaped S (zero_centroids4 S (NCALLOC / S)) := by
    intro G hG
    rw [zero_centroids4, List.mem_replicate] at hG
    rw [hG.2]
    simp
  obtain ⟨cs, hcs, _, hcscell⟩ := init_centroids_spec points NCA centroids (by omega) hpts
  obtain ⟨c1, hrun1, hlen1, hshape1, hcell1⟩ := copy_groups_spec S points4 (NCA / S)
    (zero_centroids4 S (NCALLOC / S)) (by simpa [zero_centroids4] using hq) hzshape
    (fun g l hg hl => by
      obtain ⟨p, _, hx, hy⟩ := hsrc g l hl (hfull g l hg hl)
      exact ⟨p.x, p.y, hx, hy⟩)
  obtain ⟨c4, hrun, _, _, hcell⟩ := copy_lanes_spec S points4 (NCA / S) (NCA % S) c1
    (le_of_lt hr)
    (fun h0 => by
      rw [hlen1]
      simp only [zero_centroids4, List.length_replicate]
      apply (Nat.div_lt_iff_lt_mul hpos).mpr
      rcases Nat.lt_or_ge NCA (NCALLOC / S * S) with h | h
      · exact h
      · have heq : NCA = NCALLOC / S * S := le_antisymm hroom h
        rw [heq, Nat.mul_mod_left] at h0
        exact absurd h0 (Nat.lt_irrefl 0))
    hshape1
    (fun l hl => by
      obtain ⟨p, _, hx, hy⟩ := hsrc (NCA / S) l (by omega) (hrem l hl)
      exact ⟨p.x, p.y, hx, hy⟩)
  refine ⟨cs, c4, hcs, ?_, ?_, ?_, init_centroids4_eq_fold S NCA NCALLOC points4,
    init_writes_eq S NCA e hS⟩
  · simp only [init_centroids4, hrun1, hand, bind, Except.bind]
    exact hrun
  · intro i hi
    have hil : i % S < S := Nat.mod_lt i hpos
    have hidm : i / S * S + i % S = i := by
      rw [Nat.mul_comm]
      exact Nat.div_add_mod i S
    obtain ⟨p, hp, hx, hy⟩ := hsrc (i / S) (i % S) hil (by rw [hidm]; exact hi)
    rw [hidm] at hp
    obtain ⟨h1, h2, h3⟩ := hcell (i / S) (i % S)
    obtain ⟨k1, k2, k3⟩ := hcell1 (i / S) (i % S)
    refine ⟨p, hp, ?_, ?_, ?_, ?_⟩
    · rw [hcscell i, if_pos hi, hp]
      rfl
    · rw [h1]
      split_ifs with hc
      · rw [← hc.1]
        exact hx
      · rw [k1]
        split_ifs with hc1
        · exact hx
        · exfalso
          have hle : i / S ≤ NCA / S := Nat.div_le_div_right (le_of_lt hi)
          rcases Nat.lt_or_ge (i / S) (NCA / S) with h | h
          · exact hc1 ⟨h, hil⟩
          · have heq : i / S = NCA / S := le_antisymm hle h
            apply hc
            refine ⟨heq, ?_⟩
            rw [heq, Nat.mul_comm] at hidm
            omega
    · rw [h2]
      split_ifs with hc
      · rw [← hc.1]
        exact hy
      · rw [k2]
        split_ifs with hc1
        · exact hy
        · exfalso
          have hle : i / S ≤ NCA / S := Nat.div_le_div_right (le_of_lt hi)
          rcases Nat.lt_or_ge (i / S) (NCA / S) with h | h
          · exact hc1 ⟨h, hil⟩
          · have heq : i / S = NCA / S := le_antisymm hle h
            apply hc
            refine ⟨heq, ?_⟩
            rw [heq, Nat.mul_comm] at hidm
            omega
    · rw [h3]
      split_ifs with hc
      · rfl
      · rw [k3]
        split_ifs with hc1
        · rfl
        · exfalso
          have hle : i / S ≤ NCA / S := Nat.div_le_div_right (le_of_lt hi)
          rcases Nat.lt_or_ge (i / S) (NCA / S) with h | h
          · exact hc1 ⟨h, hil⟩
          · have heq : i / S = NCA / S := le_antisymm hle h
            apply hc
            refine ⟨heq, ?_⟩
            rw [heq, Nat.mul_comm] at hidm
            omega
  · intro g l hg hl hge
    obtain ⟨h1, h2, h3⟩ := hcell g l
    obtain ⟨k1, k2, k3⟩ := hcell1 g l
    obtain ⟨z1, z2, z3⟩ := cell_zero S (NCALLOC / S) g l hg hl
    have hn1 : ¬ (g = NCA / S ∧ l < NCA % S) := by
      rintro ⟨hg1, hl1⟩
      have := hrem l hl1
      rw [← hg1] at this
      omega
    have hn2 : ¬ (g < NCA / S ∧ l < S) := by
      rintro ⟨hg1, hl1⟩
      have := hfull g l hg1 hl1
      omega
    rw [h1, h2, h3, if_neg hn1, if_neg hn1, if_neg hn1, k1, k2, k3, if_neg hn2, if_neg hn2,
      if_neg hn2]
    exact ⟨z1, z2, z3⟩

theorem init_same_centroids_witness :
    (2 = 2 ^ 1 ∧
      PacksPoints 2 [⟨1, 2, 0⟩, ⟨3, 4, 0⟩, ⟨5, 6, 0⟩, ⟨7, 8, 0⟩]
        [⟨[1, 3], [2, 4], [0, 0]⟩, ⟨[5, 7], [6, 8], [0, 0]⟩] ∧
      3 ≤ ([⟨1, 2, 0⟩, ⟨3, 4, 0⟩, ⟨5, 6, 0⟩, ⟨7, 8, 0⟩] : List Point).length ∧
      3 ≤ 4 / 2 * 2 ∧ (zero_centroids 3).length = 3) ∧
    ∃ cs c4, init_centroids [⟨1, 2, 0⟩, ⟨3, 4, 0⟩, ⟨5, 6, 0⟩, ⟨7, 8, 0⟩] 3 (zero_centroids 3)
        = Except.ok cs ∧
      init_centroids4 2 3 4 [⟨[1, 3], [2, 4], [0, 0]⟩, ⟨[5, 7], [6, 8], [0, 0]⟩]
        = Except.ok c4 ∧
      (∀ i : Nat, i < 3 →
        ∃ p, ([⟨1, 2, 0⟩, ⟨3, 4, 0⟩, ⟨5, 6, 0⟩, ⟨7, 8, 0⟩] : List Point)[i]? = some p ∧
          cs[i]? = some ⟨p.x, p.y, 0⟩ ∧
          cell_x c4 (i / 2) (i % 2) = some p.x ∧ cell_y c4 (i / 2) (i % 2) = some p.y ∧
          cell_n c4 (i / 2) (i % 2) = some 0) ∧
      (∀ g l : Nat, g < 4 / 2 → l < 2 → 3 ≤ g * 2 + l →
        cell_x c4 g l = some 0 ∧ cell_y c4 g l = some 0 ∧ cell_n c4 g l = some 0) ∧
      init_centroids4 2 3 4 [⟨[1, 3], [2, 4], [0, 0]⟩, ⟨[5, 7], [6, 8], [0, 0]⟩]
        = (init_writes 2 3).foldlM
            (fun c v => copy_lane [⟨[1, 3], [2, 4], [0, 0]⟩, ⟨[5, 7], [6, 8], [0, 0]⟩] v.1 v.2 c)
            (zero_centroids4 2 (4 / 2)) ∧
      init_writes 2 3 = (List.range 3).map (fun i => (i / 2, i % 2)) := by
  have hp : PacksPoints 2 [⟨1, 2, 0⟩, ⟨3, 4, 0⟩, ⟨5, 6, 0⟩, ⟨7, 8, 0⟩]
      [⟨[1, 3], [2, 4], [0, 0]⟩, ⟨[5, 7], [6, 8], [0, 0]⟩] := by
    intro i p hp
    match i, hp with
    | 0, hp => simp at hp; subst hp; simp [lane_x4, lane_y4]
    | 1, hp => simp at hp; subst hp; simp [lane_x4, lane_y4]
    | 2, hp => simp at hp; subst hp; simp [lane_x4, lane_y4]
    | 3, hp => simp at hp; subst hp; simp [lane_x4, lane_y4]
    | n + 4, hp => simp at hp
  exact ⟨⟨by decide, hp, by decide, by decide, by decide⟩,
    init_same_centroids 2 3 4 1 (by decide) _ _ hp (by decide) (by decide) _ (by decide)⟩

/-! ## `main` -/

/-- The reading loop on well-formed records followed by any text `tail`: when
all of them fit, the loop reaches the state with the stream at `tail`. -/
theorem read_loop_prefix (stof : List Char → Option ℚ) (S NP : Nat) (hS : 0 < S)
    (tail : List Char) :
    ∀ (recs : List Record) (fuel : Nat) (st : ReadState),
      (∀ r ∈ recs, WellFormed stof r) →
      st.infile = ⟨recs.flatMap render ++ tail, false, false⟩ →
      st.j = st.i / S → st.k = st.i % S → st.i + recs.length ≤ NP →
      st.points.length = NP → Shaped4 S st.points4 →
      st.i + recs.length ≤ st.points4.length * S →
      ∃ st1, read_loop stof S NP (fuel + recs.length) st = read_loop stof S NP fuel st1 ∧
        st1.infile = ⟨tail, false, false⟩ ∧ st1.i = st.i + recs.length ∧
        st1.second = last_second st.second recs
  | [], fuel, st, _, hin, _, _, _, _, _, _ => by
    refine ⟨st, rfl, ?_, rfl, rfl⟩
    simpa using hin
  | r :: rest, fuel, st, hwf, hin, hj, hk, hle, hlen, hshape, hmem => by
    obtain ⟨hc1, hc2, hx, hy⟩ := hwf r (List.mem_cons_self _ _)
    have hlen1 : (r :: rest).length = rest.length + 1 := rfl
    rw [hlen1] at hle hmem
    have hcontent : (r :: rest).flatMap render ++ tail
        = r.first ++ ',' :: (r.second ++ '\n' :: (rest.flatMap render ++ tail)) := by
      simp [List.flatMap_cons, render]
    have hget : getline st.infile st.first ','
        = (⟨r.second ++ '\n' :: (rest.flatMap render ++ tail), false, false⟩, r.first) := by
      rw [hin, hcontent]
      exact getline_field ',' r.first _ st.first hc1
    obtain ⟨st2, hrun2, h2in, h2i, h2j, h2k, h2len, h2len4, h2shape, _, _, _, _, h2s⟩ :=
      read_pass stof S NP hS (fuel + rest.length) st r _ _ hget rfl
        (getline_field '\n' r.second (rest.flatMap render ++ tail) st.second hc2)
        hx hy hj hk (by omega) hlen hshape (by omega)
    obtain ⟨st1, hrun, hin1, hi1, hs1⟩ :=
      read_loop_prefix stof S NP hS tail rest fuel st2
        (fun r1 hr1 => hwf r1 (List.mem_cons_of_mem _ hr1)) h2in h2j h2k
        (by rw [h2i]; omega) h2len h2shape (by rw [h2len4, h2i]; omega)
    refine ⟨st1, ?_, hin1, by rw [hi1, h2i, hlen1]; omega, by rw [hs1, h2s]; rfl⟩
    rw [hlen1, ← Nat.add_assoc, hrun2]
    exact hrun

/-- When no delimiter is found, the field is the whole text. -/
theorem take_until_fst_of_none (delim : Char) :
    ∀ s : List Char, (take_until delim s).2 = none → (take_until delim s).1 = s
  | [], _ => by simp [take_until]
  | c :: s, h => by
    by_cases hc : c = delim
    · simp [take_until, hc] at h
    · simp only [take_until, if_neg hc] at h ⊢
      rw [take_until_fst_of_none delim s h]

/-- On a stream in good state that still holds text, `getline` does not set
`failbit`. -/
theorem getline_fail_of_ne_nil (delim : Char) (rest str : List Char) (h : rest ≠ []) :
    (getline ⟨rest, false, false⟩ str delim).1.fail = false := by
  have hfst := take_until_fst_of_none delim rest
  unfold getline
  simp only [Bool.false_eq_true, or_self, if_false]
  cases hp : take_until delim rest with
  | mk s o =>
    rw [hp] at hfst
    cases o with
    | some after => rfl
    | none =>
      have hs : s = rest := hfst rfl
      simp [hs, h]

/-- On a stream in good state `getline` erases the string it is given first. -/
theorem getline_good_str (delim : Char) (rest str1 str2 : List Char) :
    getline ⟨rest, false, false⟩ str1 delim = getline ⟨rest, false, false⟩ str2 delim := by
  simp [getline]

/-- The first field of a line that has its comma. -/
theorem next_first_comma (f after : List Char) (hf : ',' ∉ f) :
    next_first (f ++ ',' :: after) = f := by
  simp [next_first, getline_field ',' f after [] hf]

/-- The first field of a last line without a comma is the whole line. -/
theorem next_first_last (f : List Char) (hf : ',' ∉ f) : next_first f = f := by
  simp [next_first, getline_last ',' f [] hf]

/-- The second field of a line that has its comma and its newline. -/
theorem next_second_line (f s tail prev : List Char) (hf : ',' ∉ f) (hs : '\n' ∉ s) :
    next_second (f ++ ',' :: (s ++ '\n' :: tail)) prev = s := by
  simp [next_second, getline_field ',' f _ [] hf, getline_field '\n' s tail prev hs]

/-- The second field of a last line that has its comma and lacks its newline. -/
theorem next_second_last (f s prev : List Char) (hf : ',' ∉ f) (hs : '\n' ∉ s) :
    next_second (f ++ ',' :: s) prev = s := by
  simp [next_second, getline_field ',' f s [] hf, getline_last '\n' s prev hs]

/-- After a last line without a comma the second `getline` fails and `second`
keeps its value. -/
theorem next_second_no_comma (f prev : List Char) (hf : ',' ∉ f) :
    next_second f prev = prev := by
  rw [next_second, getline_last ',' f [] hf]
  simp [getline]

/-- A pass of the reading loop over unread text whose first field, or whose
second field, `std::stof` rejects ends the run by the uncaught exception. -/
theorem read_loop_bad_line (stof : List Char → Option ℚ) (S NP fuel : Nat) (st : ReadState)
    (rest : List Char) (hin : st.infile = ⟨rest, false, false⟩) (hrest : rest ≠ [])
    (hi : st.i ≠ NP)
    (hbad : stof (next_first rest) = none ∨ stof (next_second rest st.second) = none) :
    read_loop stof S NP (fuel + 1) st = Except.error Fault.uncaught := by
  have hget : getline st.infile st.first ',' = getline ⟨rest, false, false⟩ [] ',' := by
    rw [hin]
    exact getline_good_str ',' rest st.first []
  have hfail := getline_fail_of_ne_nil ',' rest [] hrest
  unfold read_loop
  simp only [hget]
  rw [if_neg (by simp [hfail]), if_neg hi]
  have hbody : read_body stof S
      { st with infile := (getline ⟨rest, false, false⟩ [] ',').1,
                first := (getline ⟨rest, false, false⟩ [] ',').2 }
      = Except.error Fault.uncaught := by
    unfold read_body
    simp only [next_first, next_second] at hbad
    cases hx : stof (getline ⟨rest, false, false⟩ [] ',').2 with
    | none => simp [stof_or_throw, hx, bind, Except.bind]
    | some x =>
      rcases hbad with h | h
      · rw [hx] at h
        cases h
      · simp [stof_or_throw, hx, h, bind, Except.bind]
  rw [hbody]

theorem submit_loop_error
    (submit : Nat → List Point4 → List Centroid4 → Except Int (List Point4 × List Centroid4)) :
    ∀ (k done : Nat) (p4 : List Point4) (c4 : List Centroid4) (code : Int) (n : Nat),
      submit_loop submit k done p4 c4 = (Except.error code, n) →
      done < n ∧ n ≤ done + k ∧ ∃ p c, submit (n - 1) p c = Except.error code
  | 0, done, p4, c4, code, n, h => by
    simp [submit_loop] at h
  | k + 1, done, p4, c4, code, n, h => by
    unfold submit_loop at h
    cases hs : submit done p4 c4 with
    | ok r =>
      simp only [hs] at h
      obtain ⟨h1, h2, h3⟩ := submit_loop_error submit k (done + 1) r.1 r.2 code n h
      exact ⟨by omega, by omega, h3⟩
    | error c =>
      simp only [hs] at h
      obtain ⟨h1, h2⟩ := Prod.mk.inj h
      cases h1
      subst h2
      exact ⟨by omega, by omega, p4, c4, by simpa using hs⟩

/-- C5: exit status of `main` along its control flow. With `argc != 2` the
run exits with status 1 at once; otherwise, when the file cannot be opened, it
exits with status -1; otherwise, once the host-side preparation has completed,
an exception caught during the calls of `submitJobs` (thrown by one of the at
most `NUM_ITERATIONS` calls) makes `main` return its error code; otherwise
`main` returns 0 when `verify_result` returned `true` and 1 when it returned
`false`, and only then. -/
theorem main_exit_status (cfg : Config) (env : Env) :
    (env.argc ≠ 2 → main cfg env = ⟨Outcome.exit 1, 0⟩) ∧
    (env.argc = 2 → env.file = none → main cfg env = ⟨Outcome.exit (-1), 0⟩) ∧
    (∀ (content : List Char) (points4 : List Point4) (centroids4 : List Centroid4)
        (centroids : List Centroid) (code : Int) (n : Nat),
      env.argc = 2 → env.file = some content →
      prepare cfg env.stof content = Except.ok (points4, centroids4, centroids) →
      submit_loop env.submit cfg.NUM_ITERATIONS 0 points4 centroids4 = (Except.error code, n) →
      main cfg env = ⟨Outcome.exit code, n⟩ ∧ 0 < n ∧ n ≤ cfg.NUM_ITERATIONS ∧
        ∃ p c, env.submit (n - 1) p c = Except.error code) ∧
    (∀ (content : List Char) (points4 : List Point4) (centroids4 result4 : List Centroid4)
        (centroids : List Centroid) (n : Nat) (correct : Bool),
      env.argc = 2 → env.file = some content →
      prepare cfg env.stof content = Except.ok (points4, centroids4, centroids) →
      submit_loop env.submit cfg.NUM_ITERATIONS 0 points4 centroids4 = (Except.ok result4, n) →
      verify_result cfg.SIMD_SIZE cfg.NUM_CENTROIDS_ACTUAL result4 centroids = some correct →
      ((main cfg env).outcome = Outcome.exit 0 ↔ correct = true) ∧
      ((main cfg env).outcome = Outcome.exit 1 ↔ correct = false)) := by
  refine ⟨?_, ?_, ?_, ?_⟩
  · intro h
    simp [main, h]
  · intro h1 h2
    simp [main, h1, h2]
  · intro content points4 centroids4 centroids code n h1 h2 h3 h4
    obtain ⟨k1, k2, k3⟩ := submit_loop_error env.submit _ _ _ _ _ _ h4
    refine ⟨?_, k1, by omega, k3⟩
    simp [main, h1, h2, h3, h4]
  · intro content points4 centroids4 result4 centroids n correct h1 h2 h3 h4 h5
    have hmain : (main cfg env).outcome = Outcome.exit (if correct then 0 else 1) := by
      simp [main, h1, h2, h3, h4, h5]
    rw [hmain]
    cases correct <;> simp

theorem main_exit_status_witness :
    (3 : Int) ≠ 2 ∧
    main ⟨4, 2, 2, 2, 2, 3⟩
      ⟨3, none, stof_digits, fun _ p4 c4 => Except.ok (p4, c4)⟩ = ⟨Outcome.exit 1, 0⟩ ∧
    main ⟨4, 2, 2, 2, 2, 3⟩
      ⟨2, none, stof_digits, fun _ p4 c4 => Except.ok (p4, c4)⟩ = ⟨Outcome.exit (-1), 0⟩ ∧
    main ⟨4, 2, 2, 2, 2, 3⟩
      ⟨2, some ['1', ',', '1', '\n', '9', ',', '9', '\n', '2', ',', '2', '\n',
          '8', ',', '8', '\n'], stof_digits,
        fun t p4 c4 => if t = 1 then Except.error (-5) else Except.ok (p4, c4)⟩
      = ⟨Outcome.exit (-5), 2⟩ ∧
    main ⟨4, 2, 2, 2, 2, 3⟩
      ⟨2, some ['1', ',', '1', '\n', '9', ',', '9', '\n', '2', ',', '2', '\n',
          '8', ',', '8', '\n'], stof_digits,
        fun _ p4 _ => Except.ok (p4, [⟨[3 / 2, 17 / 2], [3 / 2, 17 / 2], [2, 2]⟩])⟩
      = ⟨Outcome.exit 0, 3⟩ :=
  ⟨by decide,
    (main_exit_status ⟨4, 2, 2, 2, 2, 3⟩
      ⟨3, none, stof_digits, fun _ p4 c4 => Except.ok (p4, c4)⟩).1 (by decide),
    (main_exit_status ⟨4, 2, 2, 2, 2, 3⟩
      ⟨2, none, stof_digits, fun _ p4 c4 => Except.ok (p4, c4)⟩).2.1 rfl rfl,
    by decide!, by decide!⟩

/-- C6 (as stated, refuted): with `NUM_POINTS = 4`, `SIMD_SIZE = 2`, one
centroid and one iteration, a run on an empty file that opens reads zero
points, keeps the zero-filled arrays and calls `submitJobs`, whatever the
device does; with a device that leaves the centroid `(0, 0)` with count 4, as
the reference engine computes, `main` returns 0. -/
theorem main_empty_file_submits :
    (∀ submit : Nat → List Point4 → List Centroid4 →
        Except Int (List Point4 × List Centroid4),
      (main ⟨4, 2, 1, 2, 2, 1⟩ ⟨2, some [], stof_digits, submit⟩).submitted = 1) ∧
    main ⟨4, 2, 1, 2, 2, 1⟩
      ⟨2, some [], stof_digits, fun _ p4 _ => Except.ok (p4, [⟨[0, 0], [0, 0], [4, 0]⟩])⟩
      = ⟨Outcome.exit 0, 1⟩ := by
  refine ⟨?_, by decide!⟩
  intro submit
  have hprep : prepare ⟨4, 2, 1, 2, 2, 1⟩ stof_digits []
      = Except.ok ([⟨[0, 0], [0, 0], [0, 0]⟩, ⟨[0, 0], [0, 0], [0, 0]⟩],
          [⟨[0, 0], [0, 0], [0, 0]⟩], [⟨0, 0, 4⟩]) := by
    decide!
  simp only [main, hprep]
  simp only [submit_loop]
  cases submit 0 [⟨[0, 0], [0, 0], [0, 0]⟩, ⟨[0, 0], [0, 0], [0, 0]⟩]
      [⟨[0, 0], [0, 0], [0, 0]⟩] with
  | error code => simp
  | ok r =>
    simp only
    cases verify_result 2 1 r.2 [⟨0, 0, 4⟩] <;> simp

/-- C6 (amended): when the file opens and holds fewer than `NUM_POINTS`
well-formed lines followed by more text `rest`, and `std::stof` rejects the
first field that `std::getline` delivers from `rest`, or else the second field
(with or without the comma or the newline that should end them), the run ends
in the reading loop by the uncaught exception, before any call of
`submitJobs`. -/
theorem main_malformed_input (cfg : Config) (env : Env) (goods : List Record)
    (rest : List Char) (hargc : env.argc = 2)
    (hfile : env.file = some (goods.flatMap render ++ rest))
    (hwf : ∀ r ∈ goods, WellFormed env.stof r)
    (hm : goods.length < cfg.NUM_POINTS)
    (hroom : goods.length ≤ cfg.NUM_POINTS / cfg.SIMD_SIZE * cfg.SIMD_SIZE)
    (hrest : rest ≠ [])
    (hbad : env.stof (next_first rest) = none ∨
      env.stof (next_second rest (last_second [] goods)) = none) :
    main cfg env = ⟨Outcome.fault Fault.uncaught, 0⟩ := by
  have hread : read_points cfg env.stof (goods.flatMap render ++ rest)
      = Except.error Fault.uncaught := by
    rcases Nat.eq_zero_or_pos cfg.SIMD_SIZE with h0 | hS
    · have hg : goods = [] := by
        rw [h0, Nat.mul_zero] at hroom
        exact List.length_eq_zero.mp (by omega)
      subst hg
      unfold read_points
      exact read_loop_bad_line env.stof cfg.SIMD_SIZE cfg.NUM_POINTS cfg.NUM_POINTS _ rest
        rfl hrest (by simp only [List.length_nil] at hm; simp only; omega) hbad
    · have hshape : Shaped4 cfg.SIMD_SIZE
          (zero_points4 cfg.SIMD_SIZE (cfg.NUM_POINTS / cfg.SIMD_SIZE)) := by
        intro g hg
        rw [zero_points4, List.mem_replicate] at hg
        rw [hg.2]
        simp
      obtain ⟨st1, hrun, hin1, hi1, hs1⟩ :=
        read_loop_prefix env.stof cfg.SIMD_SIZE cfg.NUM_POINTS hS rest goods
          (cfg.NUM_POINTS - goods.length + 1)
          { infile := ⟨goods.flatMap render ++ rest, false, false⟩,
            first := [], second := [], i := 0, j := 0, k := 0,
            points := zero_points cfg.NUM_POINTS,
            points4 := zero_points4 cfg.SIMD_SIZE (cfg.NUM_POINTS / cfg.SIMD_SIZE) }
          hwf rfl (by simp) (by simp) (by simp only [Nat.zero_add]; omega)
          (by simp [zero_points]) hshape
          (by simpa [zero_points4] using hroom)
      simp only [Nat.zero_add] at hi1
      have hfuel :
          cfg.NUM_POINTS - goods.length + 1 + goods.length = cfg.NUM_POINTS + 1 := by
        omega
      rw [hfuel] at hrun
      have hbadrun := read_loop_bad_line env.stof cfg.SIMD_SIZE cfg.NUM_POINTS
        (cfg.NUM_POINTS - goods.length) st1 rest hin1 hrest (by omega)
        (by rw [hs1]; exact hbad)
      unfold read_points
      rw [hrun, hbadrun]
  simp [main, hargc, hfile, prepare, hread, bind, Except.bind]

theorem main_malformed_input_witness :
    (stof_digits (next_first ['a', 'b', 'c']) = none ∧
      main ⟨4, 2, 1, 2, 2, 1⟩
        ⟨2, some ['a', 'b', 'c'], stof_digits, fun _ p4 c4 => Except.ok (p4, c4)⟩
        = ⟨Outcome.fault Fault.uncaught, 0⟩) ∧
    (stof_digits (next_first ['\n']) = none ∧
      main ⟨4, 2, 1, 2, 2, 1⟩
        ⟨2, some ['\n'], stof_digits, fun _ p4 c4 => Except.ok (p4, c4)⟩
        = ⟨Outcome.fault Fault.uncaught, 0⟩) ∧
    (stof_digits (next_second ['1'] []) = none ∧
      main ⟨4, 2, 1, 2, 2, 1⟩
        ⟨2, some ['1'], stof_digits, fun _ p4 c4 => Except.ok (p4, c4)⟩
        = ⟨Outcome.fault Fault.uncaught, 0⟩) ∧
    (stof_digits (next_second ['1', ','] []) = none ∧
      main ⟨4, 2, 1, 2, 2, 1⟩
        ⟨2, some ['1', ','], stof_digits, fun _ p4 c4 => Except.ok (p4, c4)⟩
        = ⟨Outcome.fault Fault.uncaught, 0⟩) ∧
    ((∀ r ∈ ([⟨['1'], ['2'], 1, 2⟩] : List Record), WellFormed stof_digits r) ∧
      stof_digits (next_second ['3', ',', 'x'] ['2']) = none ∧
      main ⟨4, 2, 1, 2, 2, 1⟩
        ⟨2, some ['1', ',', '2', '\n', '3', ',', 'x'], stof_digits,
          fun _ p4 c4 => Except.ok (p4, c4)⟩
        = ⟨Outcome.fault Fault.uncaught, 0⟩) := by
  have hwf : ∀ r ∈ ([⟨['1'], ['2'], 1, 2⟩] : List Record), WellFormed stof_digits r := by
    intro r hr
    simp only [List.mem_singleton] at hr
    subst hr
    unfold WellFormed
    decide!
  have hnil : ∀ r ∈ ([] : List Record), WellFormed stof_digits r := by
    intro r hr
    cases hr
  refine ⟨⟨by decide!, ?_⟩, ⟨by decide!, ?_⟩, ⟨by decide!, ?_⟩, ⟨by decide!, ?_⟩,
    ⟨hwf, by decide!, ?_⟩⟩
  · exact main_malformed_input ⟨4, 2, 1, 2, 2, 1⟩
      ⟨2, some ['a', 'b', 'c'], stof_digits, fun _ p4 c4 => Except.ok (p4, c4)⟩
      [] ['a', 'b', 'c'] rfl rfl hnil (by decide) (by decide) (by decide)
      (Or.inl (by decide!))
  · exact main_malformed_input ⟨4, 2, 1, 2, 2, 1⟩
      ⟨2, some ['\n'], stof_digits, fun _ p4 c4 => Except.ok (p4, c4)⟩
      [] ['\n'] rfl rfl hnil (by decide) (by decide) (by decide)
      (Or.inl (by decide!))
  · exact main_malformed_input ⟨4, 2, 1, 2, 2, 1⟩
      ⟨2, some ['1'], stof_digits, fun _ p4 c4 => Except.ok (p4, c4)⟩
      [] ['1'] rfl rfl hnil (by decide) (by decide) (by decide)
      (Or.inr (by decide!))
  · exact main_malformed_input ⟨4, 2, 1, 2, 2, 1⟩
      ⟨2, some ['1', ','], stof_digits, fun _ p4 c4 => Except.ok (p4, c4)⟩
      [] ['1', ','] rfl rfl hnil (by decide) (by decide) (by decide)
      (Or.inr (by decide!))
  · exact main_malformed_input ⟨4, 2, 1, 2, 2, 1⟩
      ⟨2, some ['1', ',', '2', '\n', '3', ',', 'x'], stof_digits,
        fun _ p4 c4 => Except.ok (p4, c4)⟩
      [⟨['1'], ['2'], 1, 2⟩] ['3', ',', 'x'] rfl rfl hwf
      (by decide) (by decide) (by decide) (Or.inr (by decide!))

/-! ## Partial sums written and read -/

theorem reduced_slots_eq (NP PPT S : Nat) :
    reduced_slots NP PPT S = List.range (NP / PPT / S * S) := by
  unfold reduced_slots
  generalize NP / PPT / S = n
  induction n with
  | zero => simp
  | succ n ih =>
    rw [List.range_succ, List.flatMap_append, ih]
    simp only [List.flatMap_cons, List.flatMap_nil, List.append_nil]
    have h : (List.range S).map (fun l => n * S + l) = List.range' (n * S) S := by
      rw [List.range'_eq_map_range]
    rw [h, List.range_eq_range', List.range_eq_range']
    have happ := List.range'_append_1 0 (n * S) S
    rw [Nat.zero_add] at happ
    rw [happ]
    congr 1
    ring

theorem slots_equal_iff (NP PPT S : Nat) (hNP : 1 ≤ NP) (hPPT : 1 ≤ PPT) (hS : 1 ≤ S) :
    NP / PPT / S * S = (NP - 1) / PPT + 1 ↔ PPT * S ∣ NP := by
  constructor
  · intro h
    have h1 : NP / PPT / S * S ≤ NP / PPT := Nat.div_mul_le_self _ _
    have h2 : NP / PPT * PPT ≤ NP := Nat.div_mul_le_self _ _
    have h3 : NP - 1 < ((NP - 1) / PPT + 1) * PPT := by
      rw [Nat.mul_comm]
      exact Nat.lt_mul_div_succ (NP - 1) hPPT
    rw [← h] at h3
    have h4 : NP / PPT / S * S * PPT ≤ NP / PPT * PPT := Nat.mul_le_mul_right PPT h1
    have h5 : NP = NP / PPT / S * S * PPT := by omega
    refine ⟨NP / PPT / S, ?_⟩
    conv_lhs => rw [h5]
    ring
  · rintro ⟨m, rfl⟩
    have hm : 1 ≤ m := by
      rcases Nat.eq_zero_or_pos m with h0 | h0
      · rw [h0, Nat.mul_zero] at hNP
        omega
      · exact h0
    have hq : PPT * S * m / PPT = S * m := by
      rw [Nat.mul_assoc, Nat.mul_div_cancel_left _ hPPT]
    have hl : S * m / S * S = S * m := by
      rw [Nat.mul_div_cancel_left _ hS, Nat.mul_comm]
    have hSm : 1 ≤ S * m := Nat.mul_pos hS hm
    obtain ⟨t, ht⟩ : ∃ t, S * m = t + 1 := ⟨S * m - 1, by omega⟩
    have hr : (PPT * S * m - 1) / PPT + 1 = S * m := by
      have e : PPT * S * m - 1 = PPT * t + (PPT - 1) := by
        rw [Nat.mul_assoc, ht, Nat.mul_add, Nat.mul_one]
        omega
      rw [e, Nat.mul_add_div hPPT, Nat.div_eq_of_lt (by omega), Nat.add_zero, ht]
    rw [hq, hl, hr]

/-- C11: for `NUM_POINTS ≥ 1`, `POINTS_PER_THREAD ≥ 1` and `SIMD_SIZE ≥ 1`,
kernel `kCompCentroidPos` adds up the first
`((NUM_POINTS / POINTS_PER_THREAD) / SIMD_SIZE) * SIMD_SIZE` elements of a field
array, kernel `kMeans` writes its first `(NUM_POINTS - 1) / POINTS_PER_THREAD + 1`
elements (one per thread), and the two numbers (equivalently, the two sets of
elements) agree if and only if `POINTS_PER_THREAD * SIMD_SIZE` divides
`NUM_POINTS`. -/
theorem reduction_reads_all_iff (NP PPT S : Nat) (hNP : 1 ≤ NP) (hPPT : 1 ≤ PPT)
    (hS : 1 ≤ S) :
    (reduced_slots NP PPT S).length = NP / PPT / S * S ∧
    (written_slots NP PPT).length = (NP - 1) / PPT + 1 ∧
    ((reduced_slots NP PPT S).length = (written_slots NP PPT).length ↔ PPT * S ∣ NP) ∧
    (reduced_slots NP PPT S = written_slots NP PPT ↔ PPT * S ∣ NP) := by
  have hr := reduced_slots_eq NP PPT S
  have hiff := slots_equal_iff NP PPT S hNP hPPT hS
  refine ⟨by rw [hr, List.length_range], by simp [written_slots, total_threads], ?_, ?_⟩
  · rw [hr, List.length_range]
    simpa [written_slots, total_threads] using hiff
  · rw [hr, written_slots, total_threads, ← hiff]
    constructor
    · intro h
      have := congrArg List.length h
      simpa using this
    · intro h
      rw [h]

theorem reduction_reads_all_iff_witness :
    (1 ≤ 32 ∧ 1 ≤ 4 ∧ 1 ≤ 4) ∧
    ((reduced_slots 32 4 4).length = 32 / 4 / 4 * 4 ∧
    (written_slots 32 4).length = (32 - 1) / 4 + 1 ∧
    ((reduced_slots 32 4 4).length = (written_slots 32 4).length ↔ 4 * 4 ∣ 32) ∧
    (reduced_slots 32 4 4 = written_slots 32 4 ↔ 4 * 4 ∣ 32)) :=
  ⟨by decide, reduction_reads_all_iff 32 4 4 (by decide) (by decide) (by decide)⟩

/-! ## Scatter addresses of kernel `kMeans` -/

/-- When the `SIMD_SIZE` rows addressed by one scatter span at most `2 ^ 32`
bytes, the 32-bit offset of lane `l` is `l * sizeof(Accum4) + g * sizeof(float)`. -/
theorem scatter_offset_eq (A fo F S l g : Nat) (hfield : fo + F ≤ A) (hfit : S * A ≤ 2 ^ 32)
    (hl : l < S) (hg : g * sizeof_float < F) :
    scatter_offset A l g = l * A + g * sizeof_float := by
  unfold scatter_offset
  apply Nat.mod_eq_of_lt
  have h1 : (l + 1) * A ≤ S * A := Nat.mul_le_mul_right A hl
  have h2 : (l + 1) * A = l * A + A := by ring
  omega

theorem div_mod_unique (A q1 r1 q2 r2 : Nat) (h1 : r1 < A) (h2 : r2 < A)
    (h : q1 * A + r1 = q2 * A + r2) : q1 = q2 ∧ r1 = r2 := by
  have hA : 0 < A := by omega
  have hq1 : (q1 * A + r1) / A = q1 := by
    rw [Nat.mul_comm, Nat.mul_add_div hA, Nat.div_eq_of_lt h1, Nat.add_zero]
  have hq2 : (q2 * A + r2) / A = q2 := by
    rw [Nat.mul_comm, Nat.mul_add_div hA, Nat.div_eq_of_lt h2, Nat.add_zero]
  have hr1 : (q1 * A + r1) % A = r1 := by
    rw [Nat.mul_comm, Nat.mul_add_mod, Nat.mod_eq_of_lt h1]
  have hr2 : (q2 * A + r2) % A = r2 := by
    rw [Nat.mul_comm, Nat.mul_add_mod, Nat.mod_eq_of_lt h2]
  rw [h] at hq1 hr1
  exact ⟨hq1.symm.trans hq2, hr1.symm.trans hr2⟩

/-- C12: lane `l` of thread `g` writes `l * sizeof(Accum4) + g * sizeof(float)`
bytes past the field base of row `i`; for a field array of `F` bytes inside
`Accum4`, threads with `g * sizeof(float) < F`, lanes below `SIMD_SIZE` and row
bases that are multiples of `SIMD_SIZE` (the rows of one scatter spanning at
most `2 ^ 32` bytes, so that the 32-bit offsets are these values), two writes
to the same field hit the same address only if `g1 = g2`, `l1 = l2` and
`i1 = i2`. -/
theorem scatter_injective (A fo F S : Nat) (hfield : fo + F ≤ A) (hfit : S * A ≤ 2 ^ 32)
    (g1 g2 l1 l2 i1 i2 : Nat) (hg1 : g1 * sizeof_float < F) (hg2 : g2 * sizeof_float < F)
    (hl1 : l1 < S) (hl2 : l2 < S) (hi1 : S ∣ i1) (hi2 : S ∣ i2)
    (h : scatter_address A fo i1 l1 g1 = scatter_address A fo i2 l2 g2) :
    scatter_offset A l1 g1 = l1 * A + g1 * sizeof_float ∧
    scatter_offset A l2 g2 = l2 * A + g2 * sizeof_float ∧
    g1 = g2 ∧ l1 = l2 ∧ i1 = i2 := by
  have ho1 := scatter_offset_eq A fo F S l1 g1 hfield hfit hl1 hg1
  have ho2 := scatter_offset_eq A fo F S l2 g2 hfield hfit hl2 hg2
  refine ⟨ho1, ho2, ?_⟩
  unfold scatter_address at h
  rw [ho1, ho2] at h
  have h' : (i1 + l1) * A + (fo + g1 * sizeof_float)
      = (i2 + l2) * A + (fo + g2 * sizeof_float) := by
    have e1 : (i1 + l1) * A = i1 * A + l1 * A := by ring
    have e2 : (i2 + l2) * A = i2 * A + l2 * A := by ring
    omega
  obtain ⟨hq, hr⟩ := div_mod_unique A _ _ _ _ (by omega) (by omega) h'
  have hg : g1 = g2 := by
    unfold sizeof_float at hr
    omega
  obtain ⟨a1, rfl⟩ := hi1
  obtain ⟨a2, rfl⟩ := hi2
  have hq' : a1 * S + l1 = a2 * S + l2 := by
    rw [Nat.mul_comm a1, Nat.mul_comm a2]
    exact hq
  obtain ⟨ha, hl⟩ := div_mod_unique S _ _ _ _ hl1 hl2 hq'
  exact ⟨hg, hl, by rw [ha]⟩

theorem scatter_injective_witness :
    (64 + 64 ≤ 192 ∧ 8 * 192 ≤ 2 ^ 32 ∧ 3 * sizeof_float < 64 ∧ 3 * sizeof_float < 64 ∧
      5 < 8 ∧ 5 < 8 ∧ 8 ∣ 16 ∧ 8 ∣ 16 ∧
      scatter_address 192 64 16 5 3 = scatter_address 192 64 16 5 3) ∧
    (scatter_offset 192 5 3 = 5 * 192 + 3 * sizeof_float ∧
    scatter_offset 192 5 3 = 5 * 192 + 3 * sizeof_float ∧
    3 = 3 ∧ 5 = 5 ∧ 16 = 16) :=
  ⟨by decide, scatter_injective 192 64 64 8 (by decide) (by decide) 3 3 5 5 16 16
    (by decide) (by decide) (by decide) (by decide) (by decide) (by decide) rfl⟩

/-! ## Point counts -/

theorem sum_ones (l : List Point) : (l.map (fun _ => (1 : Int))).sum = (l.length : Int) := by
  induction l with
  | nil => simp
  | cons p l ih =>
    simp only [List.map_cons, List.sum_cons, List.length_cons, ih]
    push_cast
    ring

theorem sum_filter_lt_succ {M : Type} [AddCommMonoid M] (F : Nat → Point → M) (k : Nat) :
    ∀ l : List Point,
      ((l.filter (fun q => q.cluster < k + 1)).map (fun q => F q.cluster q)).sum
        = ((l.filter (fun q => q.cluster < k)).map (fun q => F q.cluster q)).sum
          + ((members l k).map (F k)).sum
  | [] => by simp [members]
  | p :: l => by
    have ih := sum_filter_lt_succ F k l
    simp only [members] at ih
    rcases Nat.lt_trichotomy p.cluster k with h | h | h
    · have h1 : p.cluster < k + 1 := by omega
      have h2 : p.cluster ≠ k := by omega
      simp only [members, List.filter_cons]
      simp only [h, h1, h2, decide_True, decide_False, if_true, Bool.false_eq_true, if_false,
        List.map_cons, List.sum_cons]
      rw [ih, add_assoc]
    · have h1 : p.cluster < k + 1 := by omega
      have h2 : ¬ p.cluster < k := by omega
      simp only [members, List.filter_cons]
      simp only [h, Nat.lt_succ_self, lt_self_iff_false, decide_True, decide_False, if_true,
        Bool.false_eq_true, if_false, List.map_cons, List.sum_cons]
      rw [ih]
      abel
    · have h1 : ¬ p.cluster < k + 1 := by omega
      have h2 : ¬ p.cluster < k := by omega
      have h3 : p.cluster ≠ k := by omega
      simp only [members, List.filter_cons]
      simp only [h1, h2, h3, decide_False, Bool.false_eq_true, if_false]
      exact ih

/-- Summing over the points cluster by cluster is summing over the points,
when every cluster index is below `k`. -/
theorem sum_by_cluster {M : Type} [AddCommMonoid M] (F : Nat → Point → M) (k : Nat)
    (l : List Point) (hlt : ∀ q ∈ l, q.cluster < k) :
    ((List.range k).map (fun j => ((members l j).map (F j)).sum)).sum
      = (l.map (fun q => F q.cluster q)).sum := by
  have hgen : ∀ n : Nat,
      ((List.range n).map (fun j => ((members l j).map (F j)).sum)).sum
        = ((l.filter (fun q => q.cluster < n)).map (fun q => F q.cluster q)).sum := by
    intro n
    induction n with
    | zero => simp
    | succ n ih => rw [List.sum_range_succ, ih, sum_filter_lt_succ F n l]
  rw [hgen k]
  have hall : l.filter (fun q => q.cluster < k) = l := by
    apply List.filter_eq_self.mpr
    intro q hq
    simpa using hlt q hq
  rw [hall]

theorem clustering_centroids (pts : List Point) (ctrds : List Centroid) (hne : ctrds ≠ []) :
    ∃ ctrds1, clustering pts ctrds = some (pts.map (assign ctrds), ctrds1) ∧
      ctrds1.length = ctrds.length ∧
      ∀ j : Nat, j < ctrds.length →
        ctrds1[j]? = some (new_centroid
          (add_all ⟨0, 0, 0⟩ (members (pts.map (assign ctrds)) j))) := by
  obtain ⟨acc, hcl, hlen, hacc⟩ := clustering_eq pts ctrds hne
  refine ⟨_, hcl, by simp [hlen], ?_⟩
  intro j hj
  rw [List.getElem?_zipWith, hacc j hj, List.getElem?_eq_getElem hj]

theorem counts_sum (pts : List Point) (ctrds : List Centroid) (hne : ctrds ≠ []) :
    ∃ ctrds1, clustering pts ctrds = some (pts.map (assign ctrds), ctrds1) ∧
      ctrds1.length = ctrds.length ∧
      (ctrds1.map Centroid.num_points).sum = (pts.length : Int) := by
  obtain ⟨ctrds1, hcl, hlen, hc⟩ := clustering_centroids pts ctrds hne
  refine ⟨ctrds1, hcl, hlen, ?_⟩
  have hmap : ctrds1.map Centroid.num_points
      = (List.range ctrds.length).map
          (fun j => (((members (pts.map (assign ctrds)) j).map
            (fun _ => (1 : Int))).sum)) := by
    apply List.ext_getElem?
    intro n
    rcases Nat.lt_or_ge n ctrds.length with h | h
    · rw [List.getElem?_map, hc n h, List.getElem?_map, List.getElem?_range h]
      simp [new_centroid, add_all]
    · rw [List.getElem?_eq_none (by simp [hlen, h]), List.getElem?_eq_none (by simp [h])]
  rw [hmap, sum_by_cluster (fun _ _ => (1 : Int)) ctrds.length (pts.map (assign ctrds))]
  · rw [sum_ones, List.length_map]
  · intro q hq
    obtain ⟨p, _, rfl⟩ := List.mem_map.mp hq
    exact assign_cluster_lt p ctrds hne

theorem cpu_kmeans_counts :
    ∀ (n : Nat) (pts : List Point) (ctrds : List Centroid), ctrds ≠ [] →
      ∃ ptsn ctrdsn, cpu_kmeans pts ctrds (n + 1) = some (ptsn, ctrdsn) ∧
        ptsn.length = pts.length ∧ ctrdsn.length = ctrds.length ∧
        (ctrdsn.map Centroid.num_points).sum = (pts.length : Int)
  | 0, pts, ctrds, hne => by
    obtain ⟨ctrds1, hcl, hlen, hsum⟩ := counts_sum pts ctrds hne
    refine ⟨pts.map (assign ctrds), ctrds1, ?_, by simp, hlen, hsum⟩
    simp only [Nat.zero_add, cpu_kmeans, hcl]
  | n + 1, pts, ctrds, hne => by
    obtain ⟨ctrds1, hcl, hlen, _⟩ := counts_sum pts ctrds hne
    have hne1 : ctrds1 ≠ [] := by
      intro h
      rw [h] at hlen
      exact hne (List.length_eq_zero.mp hlen.symm)
    obtain ⟨ptsn, ctrdsn, hrun, hl1, hl2, hsum⟩ :=
      cpu_kmeans_counts n (pts.map (assign ctrds)) ctrds1 hne1
    refine ⟨ptsn, ctrdsn, ?_, by simpa using hl1, by rw [hl2, hlen], by simpa using hsum⟩
    rw [cpu_kmeans]
    simp only [hcl]
    exact hrun

/-- C13: with at least one centroid, one call of `clustering` completes (no
access outside `accum`), every `pts[i].cluster` it leaves is below `num_ctrds`,
and the `num_points` fields of the centroids sum to `num_pts`; after any
positive number of `cpu_kmeans` iterations the counts sum to `num_pts`. -/
theorem clustering_conserves_points (pts : List Point) (ctrds : List Centroid)
    (hne : ctrds ≠ []) :
    (∃ pts1 ctrds1, clustering pts ctrds = some (pts1, ctrds1) ∧
      pts1.length = pts.length ∧
      (∀ p ∈ pts1, p.cluster < ctrds.length) ∧
      (ctrds1.map Centroid.num_points).sum = (pts.length : Int)) ∧
    (∀ n : Nat, 0 < n → ∃ ptsn ctrdsn, cpu_kmeans pts ctrds n = some (ptsn, ctrdsn) ∧
      (ctrdsn.map Centroid.num_points).sum = (pts.length : Int)) := by
  constructor
  · obtain ⟨ctrds1, hcl, _, hsum⟩ := counts_sum pts ctrds hne
    refine ⟨_, ctrds1, hcl, by simp, ?_, hsum⟩
    intro q hq
    obtain ⟨p, _, rfl⟩ := List.mem_map.mp hq
    exact assign_cluster_lt p ctrds hne
  · intro n hn
    obtain ⟨m, rfl⟩ : ∃ m, n = m + 1 := ⟨n - 1, by omega⟩
    obtain ⟨ptsn, ctrdsn, hrun, _, _, hsum⟩ := cpu_kmeans_counts m pts ctrds hne
    exact ⟨ptsn, ctrdsn, hrun, hsum⟩

theorem clustering_conserves_points_witness :
    ([⟨0, 0, 0⟩, ⟨4, 0, 0⟩] : List Centroid) ≠ [] ∧
    ((∃ pts1 ctrds1, clustering [⟨0, 0, 0⟩, ⟨4, 0, 0⟩, ⟨1, 0, 0⟩] [⟨0, 0, 0⟩, ⟨4, 0, 0⟩]
        = some (pts1, ctrds1) ∧
      pts1.length = ([⟨0, 0, 0⟩, ⟨4, 0, 0⟩, ⟨1, 0, 0⟩] : List Point).length ∧
      (∀ p ∈ pts1, p.cluster < ([⟨0, 0, 0⟩, ⟨4, 0, 0⟩] : List Centroid).length) ∧
      (ctrds1.map Centroid.num_points).sum
        = (([⟨0, 0, 0⟩, ⟨4, 0, 0⟩, ⟨1, 0, 0⟩] : List Point).length : Int)) ∧
    (∀ n : Nat, 0 < n →
      ∃ ptsn ctrdsn, cpu_kmeans [⟨0, 0, 0⟩, ⟨4, 0, 0⟩, ⟨1, 0, 0⟩] [⟨0, 0, 0⟩, ⟨4, 0, 0⟩] n
          = some (ptsn, ctrdsn) ∧
        (ctrdsn.map Centroid.num_points).sum
          = (([⟨0, 0, 0⟩, ⟨4, 0, 0⟩, ⟨1, 0, 0⟩] : List Point).length : Int))) :=
  ⟨by simp, clustering_conserves_points _ _ (by simp)⟩

/-! ## The k-means cost -/

theorem foldl_min_le_init (p : Point) :
    ∀ (rest : List Centroid) (m0 : ℚ),
      rest.foldl (fun m c1 => min m (dist p c1)) m0 ≤ m0
  | [], m0 => le_refl m0
  | c :: rest, m0 => by
    rw [List.foldl_cons]
    exact le_trans (foldl_min_le_init p rest _) (min_le_left _ _)

theorem foldl_min_le_mem (p : Point) :
    ∀ (rest : List Centroid) (m0 : ℚ) (c : Centroid), c ∈ rest →
      rest.foldl (fun m c1 => min m (dist p c1)) m0 ≤ dist p c
  | [], _, c, h => by simp at h
  | c0 :: rest, m0, c, h => by
    rw [List.foldl_cons]
    rcases List.mem_cons.mp h with h1 | h1
    · rw [h1]
      exact le_trans (foldl_min_le_init p rest _) (min_le_right _ _)
    · exact foldl_min_le_mem p rest _ c h1

theorem min_dist_le (p : Point) (cs : List Centroid) (c : Centroid) (h : c ∈ cs) :
    min_dist p cs ≤ dist p c := by
  cases cs with
  | nil => simp at h
  | cons c0 rest =>
    rw [min_dist]
    rcases List.mem_cons.mp h with h1 | h1
    · rw [h1]
      exact foldl_min_le_init p rest _
    · exact foldl_min_le_mem p rest _ c h1

theorem foldl_min_ge (p : Point) (b : ℚ) :
    ∀ (rest : List Centroid) (m0 : ℚ), b ≤ m0 → (∀ c ∈ rest, b ≤ dist p c) →
      b ≤ rest.foldl (fun m c1 => min m (dist p c1)) m0
  | [], _, h0, _ => h0
  | c :: rest, m0, h0, h => by
    rw [List.foldl_cons]
    exact foldl_min_ge p b rest _ (le_min h0 (h c (List.mem_cons_self _ _)))
      (fun c1 hc1 => h c1 (List.mem_cons_of_mem _ hc1))

theorem min_dist_ge (p : Point) (cs : List Centroid) (hne : cs ≠ []) (b : ℚ)
    (h : ∀ c ∈ cs, b ≤ dist p c) : b ≤ min_dist p cs := by
  cases cs with
  | nil => exact absurd rfl hne
  | cons c0 rest =>
    rw [min_dist]
    exact foldl_min_ge p b rest _ (h c0 (List.mem_cons_self _ _))
      (fun c1 hc1 => h c1 (List.mem_cons_of_mem _ hc1))

/-- The distance to the centroid that `clustering` assigns is the least one. -/
theorem min_dist_eq_of_isNearest (p : Point) (cs : List Centroid) (m : ℚ) (idx : Nat)
    (h : IsNearest p cs m idx) : min_dist p cs = m := by
  obtain ⟨⟨c, hc, hm⟩, hall, _⟩ := h
  have hmem : c ∈ cs := List.getElem?_mem hc
  have hne : cs ≠ [] := List.ne_nil_of_mem hmem
  apply le_antisymm
  · rw [← hm]
    exact min_dist_le p cs c hmem
  · apply min_dist_ge p cs hne m
    intro c1 hc1
    obtain ⟨n, hn⟩ := List.getElem?_of_mem hc1
    exact hall n c1 hn

theorem sum_dist_expand (c : Centroid) :
    ∀ M : List Point,
      (M.map (fun q => dist q c)).sum
        = (M.map (fun q => q.x * q.x + q.y * q.y)).sum
          - 2 * c.x * (M.map Point.x).sum - 2 * c.y * (M.map Point.y).sum
          + (M.length : ℚ) * (c.x * c.x + c.y * c.y)
  | [] => by simp
  | q :: M => by
    have ih := sum_dist_expand c M
    simp only [List.map_cons, List.sum_cons, List.length_cons]
    rw [ih]
    simp only [dist]
    push_cast
    ring

/-- The mean of a non-empty cluster is at least as good a centroid for it as
any other position. -/
theorem mean_minimizes (M : List Point) (hM : 0 < M.length) (c : Centroid) :
    (M.map (fun q => dist q (new_centroid (add_all ⟨0, 0, 0⟩ M)))).sum
      ≤ (M.map (fun q => dist q c)).sum := by
  have hn : (0 : ℚ) < (M.length : ℚ) := by exact_mod_cast hM
  have hn0 : (M.length : ℚ) ≠ 0 := ne_of_gt hn
  have hx : (new_centroid (add_all ⟨0, 0, 0⟩ M)).x = (M.map Point.x).sum / (M.length : ℚ) := by
    simp [new_centroid, add_all]
  have hy : (new_centroid (add_all ⟨0, 0, 0⟩ M)).y = (M.map Point.y).sum / (M.length : ℚ) := by
    simp [new_centroid, add_all]
  rw [sum_dist_expand, sum_dist_expand, hx, hy]
  have key : ∀ (s t n : ℚ), 0 < n →
      -(2 * (s / n) * s) + n * (s / n * (s / n)) ≤ -(2 * t * s) + n * (t * t) := by
    intro s t n hpos
    have hne : n ≠ 0 := ne_of_gt hpos
    have e : -(2 * t * s) + n * (t * t) - (-(2 * (s / n) * s) + n * (s / n * (s / n)))
        = (n * t - s) ^ 2 / n := by
      field_simp
      ring
    have hnn : 0 ≤ (n * t - s) ^ 2 / n := div_nonneg (sq_nonneg _) (le_of_lt hpos)
    linarith
  have kx := key (M.map Point.x).sum c.x (M.length : ℚ) hn
  have ky := key (M.map Point.y).sum c.y (M.length : ℚ) hn
  linarith

theorem min_dist_assign (ctrds cs : List Centroid) (p : Point) :
    min_dist (assign ctrds p) cs = min_dist p cs := by
  cases cs <;> rfl

theorem getD_of_getElem? (cs : List Centroid) (j : Nat) (c d : Centroid)
    (h : cs[j]? = some c) : cs.getD j d = c := by
  simp [List.getD_eq_getElem?_getD, h]

/-- The cost with the centroids rebuilt from non-empty clusters is at most the
cost with the centroids the assignment was made for. -/
theorem cost_step (pts : List Point) (ctrds ctrds1 : List Centroid) (hne : ctrds ≠ [])
    (hlen : ctrds1.length = ctrds.length)
    (hc : ∀ j : Nat, j < ctrds.length →
      ctrds1[j]? = some (new_centroid
        (add_all ⟨0, 0, 0⟩ (members (pts.map (assign ctrds)) j))))
    (hall : ∀ j : Nat, j < ctrds.length → 0 < (members (pts.map (assign ctrds)) j).length) :
    cost (pts.map (assign ctrds)) ctrds1 ≤ cost pts ctrds := by
  have hlt : ∀ q ∈ pts.map (assign ctrds), q.cluster < ctrds.length := by
    intro q hq
    obtain ⟨p, _, rfl⟩ := List.mem_map.mp hq
    exact assign_cluster_lt p ctrds hne
  have hA : cost (pts.map (assign ctrds)) ctrds1
      ≤ ((pts.map (assign ctrds)).map
          (fun q => dist q (ctrds1.getD q.cluster ⟨0, 0, 0⟩))).sum := by
    unfold cost
    apply List.sum_le_sum
    intro q hq
    have hq1 : q.cluster < ctrds1.length := by
      rw [hlen]
      exact hlt q hq
    apply min_dist_le
    rw [List.getD_eq_getElem _ _ hq1]
    exact List.getElem_mem hq1
  have hB := sum_by_cluster (fun j q => dist q (ctrds1.getD j ⟨0, 0, 0⟩)) ctrds.length
    (pts.map (assign ctrds)) hlt
  have hD := sum_by_cluster (fun j q => dist q (ctrds.getD j ⟨0, 0, 0⟩)) ctrds.length
    (pts.map (assign ctrds)) hlt
  have hC : ((List.range ctrds.length).map (fun j => ((members (pts.map (assign ctrds)) j).map
        (fun q => dist q (ctrds1.getD j ⟨0, 0, 0⟩))).sum)).sum
      ≤ ((List.range ctrds.length).map (fun j => ((members (pts.map (assign ctrds)) j).map
        (fun q => dist q (ctrds.getD j ⟨0, 0, 0⟩))).sum)).sum := by
    apply List.sum_le_sum
    intro j hj
    have hj1 : j < ctrds.length := List.mem_range.mp hj
    rw [getD_of_getElem? ctrds1 j _ _ (hc j hj1)]
    exact mean_minimizes _ (hall j hj1) _
  have hE : ((pts.map (assign ctrds)).map
        (fun q => dist q (ctrds.getD q.cluster ⟨0, 0, 0⟩))).sum = cost pts ctrds := by
    unfold cost
    rw [List.map_map]
    congr 1
    apply List.map_congr_left
    intro p _
    obtain ⟨m, hnear⟩ := assign_spec p ctrds hne
    have hmin := min_dist_eq_of_isNearest p ctrds m _ hnear
    obtain ⟨⟨c, hcj, hm⟩, _, _⟩ := hnear
    simp only [Function.comp_apply]
    rw [getD_of_getElem? ctrds _ c _ hcj, hmin, ← hm]
    rfl
  calc cost (pts.map (assign ctrds)) ctrds1
      ≤ _ := hA
    _ = _ := hB.symm
    _ ≤ _ := hC
    _ = _ := hD
    _ = cost pts ctrds := hE

/-- C14: over exact arithmetic, when a call of `clustering` on a non-empty
array of centroids assigns at least one point to every centroid, the sum over
the points of the least squared distance to a centroid, taken with the
centroids after the call, is at most the same sum taken with the centroids
before the call (the points keep their coordinates, so the sum is the same
over the points before and after the call). -/
theorem clustering_cost_le (pts : List Point) (ctrds : List Centroid) (hne : ctrds ≠ [])
    (pts1 : List Point) (ctrds1 : List Centroid)
    (hcl : clustering pts ctrds = some (pts1, ctrds1))
    (hall : ∀ j : Nat, j < ctrds.length → 0 < (members pts1 j).length) :
    cost pts ctrds1 ≤ cost pts ctrds ∧ cost pts1 ctrds1 = cost pts ctrds1 := by
  obtain ⟨cs, hcs, hlen, hc⟩ := clustering_centroids pts ctrds hne
  rw [hcs] at hcl
  obtain ⟨h1, h2⟩ := Prod.mk.inj (Option.some.inj hcl)
  subst h1
  subst h2
  have hsame : cost (pts.map (assign ctrds)) cs = cost pts cs := by
    unfold cost
    rw [List.map_map]
    apply congrArg
    apply List.map_congr_left
    intro p _
    exact min_dist_assign ctrds cs p
  refine ⟨?_, hsame⟩
  rw [← hsame]
  exact cost_step pts ctrds cs hne hlen hc hall

theorem clustering_cost_le_witness :
    (([⟨0, 0, 0⟩, ⟨4, 0, 0⟩] : List Centroid) ≠ [] ∧
      clustering [⟨0, 0, 0⟩, ⟨4, 0, 0⟩, ⟨1, 0, 0⟩] [⟨0, 0, 0⟩, ⟨4, 0, 0⟩]
        = some ([⟨0, 0, 0⟩, ⟨4, 0, 1⟩, ⟨1, 0, 0⟩], [⟨1 / 2, 0, 2⟩, ⟨4, 0, 1⟩]) ∧
      (∀ j : Nat, j < ([⟨0, 0, 0⟩, ⟨4, 0, 0⟩] : List Centroid).length →
        0 < (members [⟨0, 0, 0⟩, ⟨4, 0, 1⟩, ⟨1, 0, 0⟩] j).length)) ∧
    (cost [⟨0, 0, 0⟩, ⟨4, 0, 0⟩, ⟨1, 0, 0⟩] [⟨1 / 2, 0, 2⟩, ⟨4, 0, 1⟩]
        ≤ cost [⟨0, 0, 0⟩, ⟨4, 0, 0⟩, ⟨1, 0, 0⟩] [⟨0, 0, 0⟩, ⟨4, 0, 0⟩] ∧
      cost [⟨0, 0, 0⟩, ⟨4, 0, 1⟩, ⟨1, 0, 0⟩] [⟨1 / 2, 0, 2⟩, ⟨4, 0, 1⟩]
        = cost [⟨0, 0, 0⟩, ⟨4, 0, 0⟩, ⟨1, 0, 0⟩] [⟨1 / 2, 0, 2⟩, ⟨4, 0, 1⟩]) := by
  have hcl : clustering [⟨0, 0, 0⟩, ⟨4, 0, 0⟩, ⟨1, 0, 0⟩] [⟨0, 0, 0⟩, ⟨4, 0, 0⟩]
      = some ([⟨0, 0, 0⟩, ⟨4, 0, 1⟩, ⟨1, 0, 0⟩], [⟨1 / 2, 0, 2⟩, ⟨4, 0, 1⟩]) := by
    decide!
  have hall : ∀ j : Nat, j < ([⟨0, 0, 0⟩, ⟨4, 0, 0⟩] : List Centroid).length →
      0 < (members [⟨0, 0, 0⟩, ⟨4, 0, 1⟩, ⟨1, 0, 0⟩] j).length := by
    intro j hj
    simp only [List.length_cons, List.length_nil] at hj
    match j, hj with
    | 0, _ => simp [members]
    | 1, _ => simp [members]
  exact ⟨⟨by simp, hcl, hall⟩, clustering_cost_le _ _ (by simp) _ _ hcl hall⟩

end KMeans
